import Mathlib

/-!
Verification development for the core of the uiua interpreter
(`src/run.rs`): the compiler (`push_instr`, `word`, `words`,
`compile_words`, `binding`), the executor (`exec`, `call_with_span`,
the instruction semantics), the scope machinery (`in_scope`,
`push_scope_imports`) and error tracing (`trace_error`).

The embedding is shallow.  Rust `Vec` stacks become Lean lists with the
top at the END of the list (push is `++ [x]`, pop is
`getLast?`/`dropLast`), matching `Vec::push`/`Vec::pop`,
`drain(start..)` (`take`/`drop`) and `split_off` directly.  Fallible
steps return a `RunRes`: `ok`, `err` (a `UiuaError`), `panic` (a Rust
panic such as `.unwrap()` on `None` or an out-of-bounds index), or
`fuelOut` (the step-count fuel ran out; recursion in the interpreter is
unbounded, so every recursive function takes explicit fuel).

Out-of-scope collaborators (the primitive library, the value library's
row combinator and the lexer-provided classifiers) are interface
parameters collected in `Ext`, following the spec's interface
descriptions; everything in `run.rs` itself is translated directly.
-/

namespace Uiua

/-- Modelled from the spec: a `Span` is a source range, with the special
value `Builtin` for compiler-synthesized origin (the lexer's span type
is out of scope, so source ranges are abstracted to an id). -/
inductive Span where
  | builtin
  | code (id : Nat)
deriving DecidableEq, Repr

/-- Modelled from the spec: the primitive library is out of scope.  The
constructors name the primitives `run.rs` treats specially (`Flip`,
`Pick`, `Call`, `Reverse`, `First`, `Last`, `Noop`); all others are
`other n`.  Arity, declared inverses and `run` are interface parameters
in `Ext`. -/
inductive Primitive where
  | flip
  | pick
  | callP
  | reverseP
  | firstP
  | lastP
  | noop
  | other (code : Nat)
deriving DecidableEq, Repr

/-- Function identity (`FunctionId` in `function.rs`, as matched by
`run.rs`): `Main`, `Named`, `Anonymous(span)` or `Primitive(p)`. -/
inductive FunctionId where
  | main
  | named (name : String)
  | anonymous (sp : Span)
  | primitive (p : Primitive)
deriving DecidableEq, Repr

mutual

/-- Values as `run.rs` observes them.  A `Value::Func` with empty shape
(a scalar function, the value library guarantees exactly one element)
is `funcS`; a function array with non-empty shape is `funcA`.  Numbers
are modelled as integers (`run.rs` itself never computes with the f64
payload), characters and strings as literals, and all other arrays
abstractly by their rows. -/
inductive Value where
  | num (n : Int)
  | chr (c : Char)
  | strv (s : String)
  | arr (rows : List Value)
  | funcS (f : Function)
  | funcA (fs : List Function)

/-- `Function { id, instrs, dfn_args }`. -/
inductive Function where
  | mk (id : FunctionId) (instrs : List Instr) (dfnArgs : Option Nat)

/-- The instruction set of `run.rs` (`Instr` in `function.rs`, as
constructed and executed by `run.rs`). -/
inductive Instr where
  | Push (v : Value)
  | BeginArray
  | EndArray (span : Nat)
  | Prim (p : Primitive) (span : Nat)
  | Call (span : Nat)
  | DfnVal (i : Nat)
  | If (ifTrue ifFalse : Function)

end

def Function.id : Function → FunctionId
  | .mk i _ _ => i

def Function.instrs : Function → List Instr
  | .mk _ is _ => is

def Function.dfnArgs : Function → Option Nat
  | .mk _ _ d => d

/-- `matches!(value, Value::Func(_))` — any function value, scalar or not. -/
def Value.isFunc : Value → Bool
  | .funcS _ => true
  | .funcA _ => true
  | _ => false

/-- Modelled from the spec: the value library's `as_nat` requires a
scalar non-negative integer ("require a non-negative integer"). -/
def Value.asNat : Value → Option Nat
  | .num n => if 0 ≤ n then some n.toNat else none
  | _ => none

/-- One entry of a runtime error trace (`TraceFrame { id, span }`). -/
structure TraceFrame where
  id : FunctionId
  span : Span
deriving DecidableEq, Repr

/-- `UiuaError`: load, parse, run, traced and break errors. -/
inductive UiuaError where
  | load (path msg : String)
  | parseE (msgs : List String)
  | run (sp : Span) (msg : String)
  | traced (err : UiuaError) (trace : List TraceFrame)
  | brk (n : Nat) (sp : Span)
deriving DecidableEq, Repr

/-- Result of a fallible interpreter step: success, a `UiuaError`, a
Rust panic (`unwrap` on `None`, out-of-bounds indexing), or exhaustion
of the step fuel. -/
inductive RunRes (α : Type) where
  | ok (a : α)
  | err (e : UiuaError)
  | panic
  | fuelOut
deriving DecidableEq, Repr

/-- A step "returned" in the Rust sense: normal completion or an error
(panics abort the process and `fuelOut` is an artefact of the fuel). -/
def RunRes.done : RunRes α → Bool
  | .ok _ => true
  | .err _ => true
  | .panic => false
  | .fuelOut => false

/-- `StackFrame { function, call_span, pc, spans, dfn }`. -/
structure StackFrame where
  function : Function
  call_span : Nat
  pc : Nat
  spans : List (Nat × Option Primitive)
  dfn : Bool

/-- `DfnFrame { function, args }`. -/
structure DfnFrame where
  function : Function
  args : List Value

/-- `Scope { value, anti, array, dfn, call, names }`.  The `HashMap` of
names is modelled as an association list (first match wins; the map's
iteration order is unspecified in the source). -/
structure Scope where
  value : List Value
  anti : List Value
  array : List Nat
  dfn : List DfnFrame
  call : List StackFrame
  names : List (String × Nat)

/-- `RunMode`. -/
inductive RunMode where
  | normal
  | test
  | watch
deriving DecidableEq, Repr

/-- The `Uiua` runtime state (minus the `io` capability handle, which
no claim touches): compilation buffers, statics, the live scope, the
saved-scope stack and the import bookkeeping. -/
structure UiuaState where
  new_functions : List (List Instr)
  new_dfns : List (List Nat)
  globals : List Value
  spans : List Span
  stack : Scope
  lower_stacks : List Scope
  mode : RunMode
  current_imports : List String
  imports : List (String × Scope)

/-- Modelled from the spec: the external collaborators of `run.rs`.
`fromRowValues` is the value library's row combinator (may fail on
non-conforming shapes, never mutates the runtime); `primRun` is the
primitive library's `run(vm)` viewed as a state transformer; the arity
and inverse oracles back the peephole pass; `parseNum`,
`fromMultiname` and `isFunctiony` are the number parser, the primitive
shorthand lookup and the lexer's binding classification; `initNames`
is the pre-seeded primitive name table and `defaultValue` is
`Value::default()`. -/
structure Ext where
  fromRowValues : List Value → UiuaState → Except UiuaError Value
  primRun : Primitive → UiuaState → UiuaState × RunRes Unit
  pArgs : Primitive → Nat
  pOuts : Primitive → Nat
  pInverse : Primitive → Option Primitive
  parseNum : String → Option Value
  fromMultiname : String → Option (List Primitive)
  isFunctiony : String → Bool
  initNames : List (String × Nat)
  defaultValue : Value

/-! ## Small state helpers -/

def setValue (v : List Value) (s : UiuaState) : UiuaState :=
  { s with stack := { s.stack with value := v } }

def setAnti (v : List Value) (s : UiuaState) : UiuaState :=
  { s with stack := { s.stack with anti := v } }

def setArray (v : List Nat) (s : UiuaState) : UiuaState :=
  { s with stack := { s.stack with array := v } }

def setDfn (v : List DfnFrame) (s : UiuaState) : UiuaState :=
  { s with stack := { s.stack with dfn := v } }

def setCall (v : List StackFrame) (s : UiuaState) : UiuaState :=
  { s with stack := { s.stack with call := v } }

/-- `Vec::last_mut` followed by a mutation: `none` is the `unwrap`
panic on an empty vector. -/
def modify_last (f : α → α) (xs : List α) : Option (List α) :=
  match xs.getLast? with
  | none => none
  | some x => some (xs.dropLast ++ [f x])

/-- Index into the span table (`self.spans[i]`; indices recorded by
`add_span` are always in range, so the default is never reached in
real executions). -/
def nthSpan (spans : List Span) (i : Nat) : Span :=
  spans.getD i Span.builtin

/-- `span_index`: the innermost recorded span of the top call frame,
its `call_span` when none is recorded, or 0 with no frame. -/
def span_index (s : UiuaState) : Nat :=
  match s.stack.call.getLast? with
  | none => 0
  | some frame =>
    match frame.spans.getLast? with
    | some (i, _) => i
    | none => frame.call_span

/-- `self.span()`. -/
def current_span (s : UiuaState) : Span :=
  nthSpan s.spans (span_index s)

/-- `self.error(message)`: a `Run` error at the current span. -/
def run_error (s : UiuaState) (msg : String) : UiuaError :=
  .run (current_span s) msg

/-- `trace_error`: one trace entry per `Some(prim)` span recorded on
the frame, in order, then an entry for the frame itself; append to an
existing trace or start one. -/
def prim_trace_entries (spans : List Span) (fsp : List (Nat × Option Primitive)) :
    List TraceFrame :=
  fsp.filterMap fun pr => pr.2.map fun p => ⟨.primitive p, nthSpan spans pr.1⟩

def trace_error (spans : List Span) (err : UiuaError) (frame : StackFrame) : UiuaError :=
  let frames := prim_trace_entries spans frame.spans ++
    [⟨frame.function.id, nthSpan spans frame.call_span⟩]
  match err with
  | .traced e tr => .traced e (tr ++ frames)
  | e => .traced e frames

/-- The trace carried by an error (empty when untraced). -/
def traceOf : UiuaError → List TraceFrame
  | .traced _ tr => tr
  | _ => []

/-- `push_span`. -/
def push_span (spi : Nat) (pr : Option Primitive) (s : UiuaState) : Option UiuaState :=
  (modify_last (fun fr => { fr with spans := fr.spans ++ [(spi, pr)] }) s.stack.call).map
    (fun c => setCall c s)

/-- `pop_span` (`Vec::pop` on the frame's span stack; popping an empty
span stack is a no-op, but the frame lookup itself can panic). -/
def pop_span (s : UiuaState) : Option UiuaState :=
  (modify_last (fun fr => { fr with spans := fr.spans.dropLast }) s.stack.call).map
    (fun c => setCall c s)

def push_frame (fr : StackFrame) (s : UiuaState) : UiuaState :=
  setCall (s.stack.call ++ [fr]) s

/-! ## The executor (`exec`, `call_with_span` and the instruction
semantics), with explicit fuel for the unbounded mutual recursion. -/

mutual

/-- `exec(frame)`: note the entry height, push the frame, loop. -/
def exec (E : Ext) (fuel : Nat) (frame : StackFrame) (s : UiuaState) :
    UiuaState × RunRes Unit :=
  match fuel with
  | 0 => (s, .fuelOut)
  | fuel + 1 =>
    let ret := s.stack.call.length
    exec_loop E fuel ret (push_frame frame s)

/-- The `while self.stack.call.len() > ret_height` loop of `exec`:
pop finished frames (popping the dfn stack in lock-step when the
frame's `dfn` flag is set), otherwise run one instruction; on success
bump the top frame's `pc`, on failure split the call stack back to the
entry height and thread the error through `trace_error` for each
popped frame. -/
def exec_loop (E : Ext) (fuel : Nat) (ret : Nat) (s : UiuaState) :
    UiuaState × RunRes Unit :=
  match fuel with
  | 0 => (s, .fuelOut)
  | fuel + 1 =>
    if s.stack.call.length ≤ ret then (s, .ok ())
    else
      match s.stack.call.getLast? with
      | none => (s, .panic)
      | some frame =>
        match frame.function.instrs.get? frame.pc with
        | none =>
          let s1 := setCall s.stack.call.dropLast s
          let s2 := if frame.dfn then setDfn s1.stack.dfn.dropLast s1 else s1
          exec_loop E fuel ret s2
        | some instr =>
          match exec_instr E fuel instr s with
          | (s1, .ok _) =>
            match modify_last (fun fr => { fr with pc := fr.pc + 1 }) s1.stack.call with
            | none => (s1, .panic)
            | some c2 => exec_loop E fuel ret (setCall c2 s1)
          | (s1, .err e) =>
            let frames := s1.stack.call.drop ret
            let s2 := setCall (s1.stack.call.take ret) s1
            (s2, .err (frames.foldl (fun e2 fr => trace_error s2.spans e2 fr) e))
          | (s1, .panic) => (s1, .panic)
          | (s1, .fuelOut) => (s1, .fuelOut)

/-- The per-instruction `match` body of `exec`.  `self.call()` inside
the `If` case is `call_with_span(self.span_index())`. -/
def exec_instr (E : Ext) (fuel : Nat) (i : Instr) (s : UiuaState) :
    UiuaState × RunRes Unit :=
  match fuel with
  | 0 => (s, .fuelOut)
  | fuel + 1 =>
    match i with
    | .Push v => (setValue (s.stack.value ++ [v]) s, .ok ())
    | .BeginArray => (setArray (s.stack.array ++ [s.stack.value.length]) s, .ok ())
    | .EndArray spi =>
      match s.stack.array.getLast? with
      | none => (s, .panic)
      | some start =>
        let s1 := setArray s.stack.array.dropLast s
        if s1.stack.value.length < start then
          (s1, .err (run_error s1 "Array removed elements"))
        else
          let vals := (s1.stack.value.drop start).reverse
          let s2 := setValue (s1.stack.value.take start) s1
          match push_span spi none s2 with
          | none => (s2, .panic)
          | some s3 =>
            match E.fromRowValues vals s3 with
            | .error e => (s3, .err e)
            | .ok v =>
              match pop_span s3 with
              | none => (s3, .panic)
              | some s4 => (setValue (s4.stack.value ++ [v]) s4, .ok ())
    | .Prim p spi =>
      match push_span spi (some p) s with
      | none => (s, .panic)
      | some s1 =>
        match E.primRun p s1 with
        | (s2, .ok _) =>
          match pop_span s2 with
          | none => (s2, .panic)
          | some s3 => (s3, .ok ())
        | (s2, .err e) => (s2, .err e)
        | (s2, .panic) => (s2, .panic)
        | (s2, .fuelOut) => (s2, .fuelOut)
    | .Call spi => call_with_span E fuel spi s
    | .DfnVal n =>
      match s.stack.dfn.getLast? with
      | none => (s, .panic)
      | some fr =>
        match fr.args.get? n with
        | none => (s, .panic)
        | some v => (setValue (s.stack.value ++ [v]) s, .ok ())
    | .If ifTrue ifFalse =>
      match s.stack.value.getLast? with
      | none => (s, .err (run_error s "Stack was empty when evaluating argument 2"))
      | some v =>
        let s1 := setValue s.stack.value.dropLast s
        match v.asNat with
        | none => (s1, .err (run_error s1 "Index must be a list of integers"))
        | some 0 =>
          let s2 := setValue (s1.stack.value ++ [Value.funcS ifFalse]) s1
          call_with_span E fuel (span_index s2) s2
        | some 1 =>
          let s2 := setValue (s1.stack.value ++ [Value.funcS ifTrue]) s1
          call_with_span E fuel (span_index s2) s2
        | some (n + 2) =>
          (s1, .err (run_error s1 ("Index " ++ toString (n + 2) ++
            " is out of bounds of length 2 (dimension 1) in shape [2]")))

/-- `call_with_span`: pop the called value; a scalar function is
entered (with dfn-argument capture when it declares `dfn_args`); any
other value takes the non-function branch, which pops once more and
re-pushes the examined value. -/
def call_with_span (E : Ext) (fuel : Nat) (call_span : Nat) (s : UiuaState) :
    UiuaState × RunRes Unit :=
  match fuel with
  | 0 => (s, .fuelOut)
  | fuel + 1 =>
    match s.stack.value.getLast? with
    | none => (s, .err (run_error s "Stack was empty when evaluating called function"))
    | some v =>
      let s1 := setValue s.stack.value.dropLast s
      match v with
      | .funcS f =>
        match f.dfnArgs with
        | some n =>
          if s1.stack.value.length < n then
            (s1, .err (.run (nthSpan s1.spans call_span)
              ("not enough arguments for dfn of " ++ toString n ++ " values")))
          else
            let args := (s1.stack.value.drop (s1.stack.value.length - n)).reverse
            let s2 := setValue (s1.stack.value.take (s1.stack.value.length - n)) s1
            let s3 := setDfn (s2.stack.dfn ++ [⟨f, args⟩]) s2
            exec E fuel ⟨f, call_span, 0, [], true⟩ s3
        | none => exec E fuel ⟨f, call_span, 0, [], false⟩ s1
      | v1 =>
        let s2 := setValue s1.stack.value.dropLast s1
        (setValue (s2.stack.value ++ [v1]) s2, .ok ())

end

/-- `call()`: `call_with_span` at the current `span_index`. -/
def uiua_call (E : Ext) (fuel : Nat) (s : UiuaState) : UiuaState × RunRes Unit :=
  call_with_span E fuel (span_index s) s

/-! ## The compiler -/

/-- Sequence two fallible steps (`?` propagation). -/
def rbind (x : UiuaState × RunRes α) (f : α → UiuaState → UiuaState × RunRes β) :
    UiuaState × RunRes β :=
  match x with
  | (s, .ok a) => f a s
  | (s, .err e) => (s, .err e)
  | (s, .panic) => (s, .panic)
  | (s, .fuelOut) => (s, .fuelOut)

/-- The peephole pass of `push_instr`, as a pure function of the
instruction buffer (the match on the reversed list is the Rust slice
pattern `[.., a, b, c, d, e, f]` read from the end).  Arms in source
order: if-fusion of `BeginArray, Push f1, Push f2, EndArray, Flip,
Pick` followed by the `Call` primitive; `Reverse`+`First`/`Last`
rewriting in place; inverse annihilation when the previous primitive's
declared inverse is the new one and both have equal in/out arity;
`Noop` elision; default append. -/
def push_instr (E : Ext) (instrs : List Instr) (instr : Instr) : List Instr :=
  match instrs.reverse, instr with
  | .Prim .pick _ :: .Prim .flip _ :: .EndArray _ :: .Push vFalse :: .Push vTrue ::
      .BeginArray :: rest, .Prim .callP spi =>
    (match vTrue, vFalse with
     | .funcS fTrue, .funcS fFalse => (Instr.If fTrue fFalse :: rest).reverse
     | _, _ => instrs ++ [.Prim .callP spi])
  | .Prim top tspan :: rest2, .Prim nw nspan =>
    if top = .reverseP ∧ nw = .firstP then (Instr.Prim .lastP tspan :: rest2).reverse
    else if top = .reverseP ∧ nw = .lastP then (Instr.Prim .firstP tspan :: rest2).reverse
    else if E.pArgs top = E.pOuts top ∧ E.pArgs nw = E.pOuts nw ∧
        E.pInverse top = some nw then rest2.reverse
    else instrs ++ [.Prim nw nspan]
  | _, .Prim .noop _ => instrs
  | _, i2 => instrs ++ [i2]

/-- Stateful `push_instr`: apply the peephole pass to the innermost
`new_functions` buffer (`last_mut().unwrap()`). -/
def push_instr_m (E : Ext) (i : Instr) (s : UiuaState) : UiuaState × RunRes Unit :=
  match s.new_functions.getLast? with
  | none => (s, .panic)
  | some buf =>
    ({ s with new_functions := s.new_functions.dropLast ++ [push_instr E buf i] }, .ok ())

/-- `add_span`: append to the span table, return the new index. -/
def add_span (sp : Span) (s : UiuaState) : UiuaState × Nat :=
  ({ s with spans := s.spans ++ [sp] }, s.spans.length)

/-- `primitive(prim, span, call)`: in call position emit `Prim`;
otherwise wrap the primitive as a one-instruction function and push it. -/
def primitive (E : Ext) (p : Primitive) (sp : Span) (call : Bool) (s : UiuaState) :
    UiuaState × RunRes Unit :=
  let (s1, idx) := add_span sp s
  if call then push_instr_m E (.Prim p idx) s1
  else push_instr_m E (.Push (.funcS (.mk (.primitive p) [.Prim p idx] none))) s1

/-- The `for (prim, _) in prims.into_iter().rev()` loop of `ident`:
emit each shorthand primitive in right-to-left order. -/
def run_prims_rev (E : Ext) (ps : List Primitive) (sp : Span) (call : Bool)
    (s : UiuaState) : UiuaState × RunRes Unit :=
  match ps with
  | [] => (s, .ok ())
  | p :: rest =>
    rbind (run_prims_rev E rest sp call s) fun _ s1 => primitive E p sp call s1

/-- `HashMap::get` on the names association list. -/
def lookupName (ns : List (String × Nat)) (k : String) : Option Nat :=
  (ns.find? fun pr => pr.1 = k).map (·.2)

/-- `HashMap::insert` (overwrite semantics: the new pair shadows). -/
def insertName (ns : List (String × Nat)) (k : String) (v : Nat) :
    List (String × Nat) :=
  (k, v) :: ns

/-- `ident`: bound name (push the global, plus `Call` if it is a
function in call position); else primitive-shorthand run; else a dfn
parameter `a..z` when inside a dfn body; else "unknown identifier". -/
def ident (E : Ext) (nm : String) (sp : Span) (call : Bool) (s : UiuaState) :
    UiuaState × RunRes Unit :=
  match lookupName s.stack.names nm with
  | some idx =>
    match s.globals.get? idx with
    | none => (s, .panic)
    | some v =>
      let isFn := v.isFunc
      rbind (push_instr_m E (.Push v) s) fun _ s1 =>
        if isFn ∧ call then
          let (s2, i2) := add_span sp s1
          push_instr_m E (.Call i2) s2
        else (s1, .ok ())
  | none =>
    match E.fromMultiname nm with
    | some prims => run_prims_rev E prims sp call s
    | none =>
      match s.new_dfns.getLast? with
      | some _ =>
        match nm.toList with
        | [c] =>
          if 'a' ≤ c ∧ c ≤ 'z' then
            let idx := c.toNat - 'a'.toNat
            match modify_last (fun l => l ++ [idx]) s.new_dfns with
            | none => (s, .panic)
            | some nd => push_instr_m E (.DfnVal idx) { s with new_dfns := nd }
          else (s, .err (.run sp ("unknown identifier " ++ nm)))
        | _ => (s, .err (.run sp ("unknown identifier " ++ nm)))
      | none => (s, .err (.run sp ("unknown identifier " ++ nm)))

mutual

/-- A parsed word with its span (`Sp<Word>`); the word tree follows
the variants `run.rs` matches on (the AST lives in the out-of-scope
`ast.rs`). -/
inductive SpWord where
  | mk (sp : Span) (w : Word)

inductive Word where
  | number (text : String)
  | chrW (c : Char)
  | strW (t : String)
  | identW (nm : String)
  | strand (items : List SpWord)
  | arrayW (items : List SpWord)
  | funcW (id : FunctionId) (body : List SpWord)
  | dfnW (id : FunctionId) (body : List SpWord)
  | primW (p : Primitive)
  | modifiedW (modifier : Primitive) (modSpan : Span) (words : List SpWord)
  | spacesW

end

mutual

/-- `word(word, call)`. -/
def word (E : Ext) (fuel : Nat) (w : SpWord) (call : Bool) (s : UiuaState) :
    UiuaState × RunRes Unit :=
  match fuel with
  | 0 => (s, .fuelOut)
  | fuel + 1 =>
    match w with
    | .mk sp (.number text) =>
      match E.parseNum text with
      | some v => push_instr_m E (.Push v) s
      | none => (s, .err (.run sp ("invalid number " ++ text)))
    | .mk _ (.chrW c) => push_instr_m E (.Push (.chr c)) s
    | .mk _ (.strW t) => push_instr_m E (.Push (.strv t)) s
    | .mk sp (.identW nm) => ident E nm sp call s
    | .mk sp (.strand items) =>
      rbind (push_instr_m E .BeginArray s) fun _ s1 =>
      rbind (words E fuel items false s1) fun _ s2 =>
        let (s3, idx) := add_span sp s2
        push_instr_m E (.EndArray idx) s3
    | .mk sp (.arrayW items) =>
      rbind (push_instr_m E .BeginArray s) fun _ s1 =>
      rbind (words E fuel items true s1) fun _ s2 =>
        let (s3, idx) := add_span sp s2
        push_instr_m E (.EndArray idx) s3
    | .mk _ (.funcW fid body) => func E fuel fid body s
    | .mk sp (.dfnW fid body) => dfn E fuel fid body sp call s
    | .mk sp (.primW p) => primitive E p sp call s
    | .mk _ (.modifiedW mp msp mwords) => modified E fuel mp msp mwords call s
    | .mk _ .spacesW => (s, .ok ())

/-- `words(words, call)`: compile in reverse source order. -/
def words (E : Ext) (fuel : Nat) (ws : List SpWord) (call : Bool) (s : UiuaState) :
    UiuaState × RunRes Unit :=
  match fuel with
  | 0 => (s, .fuelOut)
  | fuel + 1 =>
    match ws with
    | [] => (s, .ok ())
    | w :: rest =>
      rbind (words E fuel rest call s) fun _ s1 => word E fuel w call s1

/-- `compile_words`: open a fresh instruction sub-buffer, compile in
call position, close and return the buffer. -/
def compile_words (E : Ext) (fuel : Nat) (ws : List SpWord) (s : UiuaState) :
    UiuaState × RunRes (List Instr) :=
  match fuel with
  | 0 => (s, .fuelOut)
  | fuel + 1 =>
    let s0 := { s with new_functions := s.new_functions ++ [[]] }
    match words E fuel ws true s0 with
    | (s1, .ok _) =>
      match s1.new_functions.getLast? with
      | none => (s1, .panic)
      | some instrs =>
        ({ s1 with new_functions := s1.new_functions.dropLast }, .ok instrs)
    | (s1, .err e) => (s1, .err e)
    | (s1, .panic) => (s1, .panic)
    | (s1, .fuelOut) => (s1, .fuelOut)

/-- `func`: compile the body; a body of exactly `Push f, Call _` with
`f` a function value eta-collapses to `Push f`; otherwise wrap as an
anonymous function. -/
def func (E : Ext) (fuel : Nat) (fid : FunctionId) (body : List SpWord)
    (s : UiuaState) : UiuaState × RunRes Unit :=
  match fuel with
  | 0 => (s, .fuelOut)
  | fuel + 1 =>
    rbind (compile_words E fuel body s) fun instrs s1 =>
      match instrs with
      | [Instr.Push f, Instr.Call c] =>
        if f.isFunc then push_instr_m E (.Push f) s1
        else push_instr_m E
          (.Push (.funcS (.mk fid [Instr.Push f, Instr.Call c] none))) s1
      | _ => push_instr_m E (.Push (.funcS (.mk fid instrs none))) s1

/-- `dfn`: track parameter references in a fresh `new_dfns` buffer,
compile the body, compute `dfn_args = 1 + max index used` (0 when
unused), push the function and `Call` it in call position. -/
def dfn (E : Ext) (fuel : Nat) (fid : FunctionId) (body : List SpWord) (sp : Span)
    (call : Bool) (s : UiuaState) : UiuaState × RunRes Unit :=
  match fuel with
  | 0 => (s, .fuelOut)
  | fuel + 1 =>
    let s0 := { s with new_dfns := s.new_dfns ++ [[]] }
    rbind (compile_words E fuel body s0) fun instrs s1 =>
      match s1.new_dfns.getLast? with
      | none => (s1, .panic)
      | some refs =>
        let s2 := { s1 with new_dfns := s1.new_dfns.dropLast }
        let (s3, spi) := add_span sp s2
        let dfnSize := match refs.max? with
          | some m => m + 1
          | none => 0
        rbind (push_instr_m E (.Push (.funcS (.mk fid instrs (some dfnSize)))) s3)
          fun _ s4 =>
            if call then push_instr_m E (.Call spi) s4 else (s4, .ok ())

/-- `modified`: compile the modified words in non-call position into a
sub-buffer, emit the modifier primitive in call position, wrap the
buffer as an anonymous function, push, and `Call` in call position. -/
def modified (E : Ext) (fuel : Nat) (mp : Primitive) (msp : Span)
    (mwords : List SpWord) (call : Bool) (s : UiuaState) : UiuaState × RunRes Unit :=
  match fuel with
  | 0 => (s, .fuelOut)
  | fuel + 1 =>
    let s0 := { s with new_functions := s.new_functions ++ [[]] }
    rbind (words E fuel mwords false s0) fun _ s1 =>
    rbind (primitive E mp msp true s1) fun _ s2 =>
      match s2.new_functions.getLast? with
      | none => (s2, .panic)
      | some instrs =>
        let s3 := { s2 with new_functions := s2.new_functions.dropLast }
        rbind (push_instr_m E (.Push (.funcS (.mk (.anonymous msp) instrs none))) s3)
          fun _ s4 =>
            if call then
              let (s5, spi) := add_span msp s4
              push_instr_m E (.Call spi) s5
            else (s4, .ok ())

end

/-- `exec_global_instrs`: run an instruction list as the `Main`
function from a fresh frame. -/
def exec_global_instrs (E : Ext) (fuel : Nat) (instrs : List Instr) (s : UiuaState) :
    UiuaState × RunRes Unit :=
  exec E fuel ⟨.mk .main instrs none, 0, 0, [], false⟩ s

/-- `binding`: compile the words; a "function-y" name stores the body
as a named function value, any other name executes the body at global
scope and pops one value (or `Value::default()`); then append to
globals and bind the name to the new index. -/
def binding (E : Ext) (fuel : Nat) (bname : String) (ws : List SpWord)
    (s : UiuaState) : UiuaState × RunRes Unit :=
  match fuel with
  | 0 => (s, .fuelOut)
  | fuel + 1 =>
    if E.isFunctiony bname then
      rbind (compile_words E fuel ws s) fun instrs s1 =>
        let v := Value.funcS (.mk (.named bname) instrs none)
        ({ s1 with
            globals := s1.globals ++ [v],
            stack := { s1.stack with
              names := insertName s1.stack.names bname s1.globals.length } }, .ok ())
    else
      rbind (compile_words E fuel ws s) fun instrs s1 =>
      rbind (exec_global_instrs E fuel instrs s1) fun _ s2 =>
        let v := (s2.stack.value.getLast?).getD E.defaultValue
        let s3 := setValue s2.stack.value.dropLast s2
        ({ s3 with
            globals := s3.globals ++ [v],
            stack := { s3.stack with
              names := insertName s3.stack.names bname s3.globals.length } }, .ok ())

/-! ## Scope machinery -/

/-- `Scope::default()`: empty stacks plus the pre-seeded primitive
name table. -/
def scope_default (E : Ext) : Scope :=
  ⟨[], [], [], [], [], E.initNames⟩

/-- `in_scope(f)`: save the current scope on `lower_stacks`, install a
fresh default scope, run `f`; on success return the scope `f` built
and reinstate the saved one; on failure `?` propagates immediately
(nothing is restored). -/
def in_scope (E : Ext) (f : UiuaState → UiuaState × RunRes α) (s : UiuaState) :
    UiuaState × RunRes Scope :=
  let s1 := { s with
    lower_stacks := s.lower_stacks ++ [s.stack],
    stack := scope_default E }
  match f s1 with
  | (s2, .ok _) =>
    match s2.lower_stacks.getLast? with
    | none => (s2, .panic)
    | some saved =>
      ({ s2 with
        lower_stacks := s2.lower_stacks.dropLast,
        stack := saved }, .ok s2.stack)
  | (s2, .err e) => (s2, .err e)
  | (s2, .panic) => (s2, .panic)
  | (s2, .fuelOut) => (s2, .fuelOut)

/-- The per-name conversion of `push_scope_imports`: a scalar function
global is pushed as-is; any other global becomes a synthetic named
function that pushes the captured value.  `none` is the out-of-bounds
index panic. -/
def import_fns (globals : List Value) : List (String × Nat) → Option (List Function)
  | [] => some []
  | (name, i) :: rest =>
    match globals.get? i with
    | none => none
    | some (.funcS f) => (import_fns globals rest).map (f :: ·)
    | some v => (import_fns globals rest).map
        (Function.mk (.named name) [Instr.Push v] none :: ·)

/-- `push_scope_imports`: convert each name of the imported scope and
push the collected functions as one function-array value. -/
def push_scope_imports (sc : Scope) (s : UiuaState) : UiuaState × RunRes Unit :=
  match import_fns s.globals sc.names with
  | none => (s, .panic)
  | some fs => (setValue (s.stack.value ++ [.funcA fs]) s, .ok ())

/-! ## Concrete instantiations for witnesses and counterexamples -/

/-- A benign external interface: primitives do nothing, row combination
always succeeds, no inverses are declared, every primitive is 1-in
1-out. -/
def extDefault : Ext where
  fromRowValues := fun vs _ => .ok (.arr vs)
  primRun := fun _ s => (s, .ok ())
  pArgs := fun _ => 1
  pOuts := fun _ => 1
  pInverse := fun _ => none
  parseNum := fun _ => some (.num 0)
  fromMultiname := fun _ => none
  isFunctiony := fun _ => false
  initNames := []
  defaultValue := .num 0

def scope0 : Scope := ⟨[], [], [], [], [], []⟩

def state0 : UiuaState :=
  ⟨[], [], [], [Span.builtin], scope0, [], .normal, [], []⟩

/-- `state0` with the given value stack. -/
def stateV (vs : List Value) : UiuaState := setValue vs state0

/-- A function that pushes 10. -/
def f10 : Function := .mk .main [.Push (.num 10)] none

/-- A function that pushes 20. -/
def f20 : Function := .mk (.named "g") [.Push (.num 20)] none

/-- A concrete runtime error. -/
def errBoom : UiuaError := .run .builtin "boom"

/-- A scoped body that fails immediately. -/
def fErr : UiuaState → UiuaState × RunRes Unit := fun st => (st, .err errBoom)

/-- A scoped body that succeeds without touching the state. -/
def fOk : UiuaState → UiuaState × RunRes Unit := fun st => (st, .ok ())

/-- `state0` with one value on the stack. -/
def stateA : UiuaState := stateV [.num 5]

/-- `state0` as prepared by `in_scope` (scope saved, fresh scope in). -/
def state1 : UiuaState :=
  { state0 with
    lower_stacks := state0.lower_stacks ++ [state0.stack],
    stack := scope_default extDefault }

/-- Oracle where `other 1` declares `other 0` as its inverse (but not
conversely). -/
def extInvQ : Ext :=
  { extDefault with
    pInverse := fun p => if p = .other 1 then some (.other 0) else none }

/-- Oracle where `other 0` declares `other 1` as its inverse. -/
def extInvP : Ext :=
  { extDefault with
    pInverse := fun p => if p = .other 0 then some (.other 1) else none }

/-- An empty-bodied dfn of two arguments. -/
def fDfn : Function := .mk .main [] (some 2)

/-- A parked call frame. -/
def frame0 : StackFrame := ⟨f10, 0, 0, [], false⟩

/-- A state with an open array boundary, one value and one frame. -/
def stateEA : UiuaState := setCall [frame0] (setArray [0] (stateV [Value.num 1]))

/-- A `Main` function whose only instruction is an `If`. -/
def f9 : Function := .mk .main [.If f10 f20] none

/-- A frame about to run `f9`. -/
def frame9 : StackFrame := ⟨f9, 0, 0, [], false⟩

/-- The traced error produced by running `frame9` on an empty stack. -/
def e9 : UiuaError :=
  .traced (.run .builtin "Stack was empty when evaluating argument 2")
    [⟨.main, .builtin⟩]

/-- The globals table of `s2` extends that of `s1` (append-only). -/
def globalsExtend (s1 s2 : UiuaState) : Prop :=
  ∃ t, s2.globals = s1.globals ++ t

/-- Well-behavedness of the out-of-scope primitive library, as the
spec describes it: a primitive's `run` may do anything to the value
stacks but leaves the call stack and the span table as it found them
(its own recursive `call()`s are balanced) and only appends to the
globals table. -/
def tamePrims (E : Ext) : Prop :=
  ∀ p st, (E.primRun p st).1.stack.call = st.stack.call ∧
    (E.primRun p st).1.spans = st.spans ∧
    globalsExtend st (E.primRun p st).1

end Uiua

namespace Uiua


/-! ## Projection lemmas for the state setters -/
@[simp] theorem setValue_value (v) (s : UiuaState) : (setValue v s).stack.value = v := rfl
@[simp] theorem setValue_anti (v) (s : UiuaState) : (setValue v s).stack.anti = s.stack.anti := rfl
@[simp] theorem setValue_array (v) (s : UiuaState) : (setValue v s).stack.array = s.stack.array := rfl
@[simp] theorem setValue_dfn (v) (s : UiuaState) : (setValue v s).stack.dfn = s.stack.dfn := rfl
@[simp] theorem setValue_call (v) (s : UiuaState) : (setValue v s).stack.call = s.stack.call := rfl
@[simp] theorem setValue_names (v) (s : UiuaState) : (setValue v s).stack.names = s.stack.names := rfl
@[simp] theorem setValue_spans (v) (s : UiuaState) : (setValue v s).spans = s.spans := rfl
@[simp] theorem setValue_globals (v) (s : UiuaState) : (setValue v s).globals = s.globals := rfl
@[simp] theorem setValue_lower_stacks (v) (s : UiuaState) : (setValue v s).lower_stacks = s.lower_stacks := rfl
@[simp] theorem setValue_new_functions (v) (s : UiuaState) : (setValue v s).new_functions = s.new_functions := rfl
@[simp] theorem setValue_new_dfns (v) (s : UiuaState) : (setValue v s).new_dfns = s.new_dfns := rfl
@[simp] theorem setValue_mode (v) (s : UiuaState) : (setValue v s).mode = s.mode := rfl
@[simp] theorem setValue_current_imports (v) (s : UiuaState) : (setValue v s).current_imports = s.current_imports := rfl
@[simp] theorem setValue_imports (v) (s : UiuaState) : (setValue v s).imports = s.imports := rfl
@[simp] theorem setAnti_value (v) (s : UiuaState) : (setAnti v s).stack.value = s.stack.value := rfl
@[simp] theorem setAnti_anti (v) (s : UiuaState) : (setAnti v s).stack.anti = v := rfl
@[simp] theorem setAnti_array (v) (s : UiuaState) : (setAnti v s).stack.array = s.stack.array := rfl
@[simp] theorem setAnti_dfn (v) (s : UiuaState) : (setAnti v s).stack.dfn = s.stack.dfn := rfl
@[simp] theorem setAnti_call (v) (s : UiuaState) : (setAnti v s).stack.call = s.stack.call := rfl
@[simp] theorem setAnti_names (v) (s : UiuaState) : (setAnti v s).stack.names = s.stack.names := rfl
@[simp] theorem setAnti_spans (v) (s : UiuaState) : (setAnti v s).spans = s.spans := rfl
@[simp] theorem setAnti_globals (v) (s : UiuaState) : (setAnti v s).globals = s.globals := rfl
@[simp] theorem setAnti_lower_stacks (v) (s : UiuaState) : (setAnti v s).lower_stacks = s.lower_stacks := rfl
@[simp] theorem setAnti_new_functions (v) (s : UiuaState) : (setAnti v s).new_functions = s.new_functions := rfl
@[simp] theorem setAnti_new_dfns (v) (s : UiuaState) : (setAnti v s).new_dfns = s.new_dfns := rfl
@[simp] theorem setAnti_mode (v) (s : UiuaState) : (setAnti v s).mode = s.mode := rfl
@[simp] theorem setAnti_current_imports (v) (s : UiuaState) : (setAnti v s).current_imports = s.current_imports := rfl
@[simp] theorem setAnti_imports (v) (s : UiuaState) : (setAnti v s).imports = s.imports := rfl
@[simp] theorem setArray_value (v) (s : UiuaState) : (setArray v s).stack.value = s.stack.value := rfl
@[simp] theorem setArray_anti (v) (s : UiuaState) : (setArray v s).stack.anti = s.stack.anti := rfl
@[simp] theorem setArray_array (v) (s : UiuaState) : (setArray v s).stack.array = v := rfl
@[simp] theorem setArray_dfn (v) (s : UiuaState) : (setArray v s).stack.dfn = s.stack.dfn := rfl
@[simp] theorem setArray_call (v) (s : UiuaState) : (setArray v s).stack.call = s.stack.call := rfl
@[simp] theorem setArray_names (v) (s : UiuaState) : (setArray v s).stack.names = s.stack.names := rfl
@[simp] theorem setArray_spans (v) (s : UiuaState) : (setArray v s).spans = s.spans := rfl
@[simp] theorem setArray_globals (v) (s : UiuaState) : (setArray v s).globals = s.globals := rfl
@[simp] theorem setArray_lower_stacks (v) (s : UiuaState) : (setArray v s).lower_stacks = s.lower_stacks := rfl
@[simp] theorem setArray_new_functions (v) (s : UiuaState) : (setArray v s).new_functions = s.new_functions := rfl
@[simp] theorem setArray_new_dfns (v) (s : UiuaState) : (setArray v s).new_dfns = s.new_dfns := rfl
@[simp] theorem setArray_mode (v) (s : UiuaState) : (setArray v s).mode = s.mode := rfl
@[simp] theorem setArray_current_imports (v) (s : UiuaState) : (setArray v s).current_imports = s.current_imports := rfl
@[simp] theorem setArray_imports (v) (s : UiuaState) : (setArray v s).imports = s.imports := rfl
@[simp] theorem setDfn_value (v) (s : UiuaState) : (setDfn v s).stack.value = s.stack.value := rfl
@[simp] theorem setDfn_anti (v) (s : UiuaState) : (setDfn v s).stack.anti = s.stack.anti := rfl
@[simp] theorem setDfn_array (v) (s : UiuaState) : (setDfn v s).stack.array = s.stack.array := rfl
@[simp] theorem setDfn_dfn (v) (s : UiuaState) : (setDfn v s).stack.dfn = v := rfl
@[simp] theorem setDfn_call (v) (s : UiuaState) : (setDfn v s).stack.call = s.stack.call := rfl
@[simp] theorem setDfn_names (v) (s : UiuaState) : (setDfn v s).stack.names = s.stack.names := rfl
@[simp] theorem setDfn_spans (v) (s : UiuaState) : (setDfn v s).spans = s.spans := rfl
@[simp] theorem setDfn_globals (v) (s : UiuaState) : (setDfn v s).globals = s.globals := rfl
@[simp] theorem setDfn_lower_stacks (v) (s : UiuaState) : (setDfn v s).lower_stacks = s.lower_stacks := rfl
@[simp] theorem setDfn_new_functions (v) (s : UiuaState) : (setDfn v s).new_functions = s.new_functions := rfl
@[simp] theorem setDfn_new_dfns (v) (s : UiuaState) : (setDfn v s).new_dfns = s.new_dfns := rfl
@[simp] theorem setDfn_mode (v) (s : UiuaState) : (setDfn v s).mode = s.mode := rfl
@[simp] theorem setDfn_current_imports (v) (s : UiuaState) : (setDfn v s).current_imports = s.current_imports := rfl
@[simp] theorem setDfn_imports (v) (s : UiuaState) : (setDfn v s).imports = s.imports := rfl
@[simp] theorem setCall_value (v) (s : UiuaState) : (setCall v s).stack.value = s.stack.value := rfl
@[simp] theorem setCall_anti (v) (s : UiuaState) : (setCall v s).stack.anti = s.stack.anti := rfl
@[simp] theorem setCall_array (v) (s : UiuaState) : (setCall v s).stack.array = s.stack.array := rfl
@[simp] theorem setCall_dfn (v) (s : UiuaState) : (setCall v s).stack.dfn = s.stack.dfn := rfl
@[simp] theorem setCall_call (v) (s : UiuaState) : (setCall v s).stack.call = v := rfl
@[simp] theorem setCall_names (v) (s : UiuaState) : (setCall v s).stack.names = s.stack.names := rfl
@[simp] theorem setCall_spans (v) (s : UiuaState) : (setCall v s).spans = s.spans := rfl
@[simp] theorem setCall_globals (v) (s : UiuaState) : (setCall v s).globals = s.globals := rfl
@[simp] theorem setCall_lower_stacks (v) (s : UiuaState) : (setCall v s).lower_stacks = s.lower_stacks := rfl
@[simp] theorem setCall_new_functions (v) (s : UiuaState) : (setCall v s).new_functions = s.new_functions := rfl
@[simp] theorem setCall_new_dfns (v) (s : UiuaState) : (setCall v s).new_dfns = s.new_dfns := rfl
@[simp] theorem setCall_mode (v) (s : UiuaState) : (setCall v s).mode = s.mode := rfl
@[simp] theorem setCall_current_imports (v) (s : UiuaState) : (setCall v s).current_imports = s.current_imports := rfl
@[simp] theorem setCall_imports (v) (s : UiuaState) : (setCall v s).imports = s.imports := rfl
@[simp] theorem push_frame_call (fr) (s : UiuaState) : (push_frame fr s).stack.call = s.stack.call ++ [fr] := rfl
@[simp] theorem push_frame_value (fr) (s : UiuaState) : (push_frame fr s).stack.value = s.stack.value := rfl
@[simp] theorem push_frame_anti (fr) (s : UiuaState) : (push_frame fr s).stack.anti = s.stack.anti := rfl
@[simp] theorem push_frame_array (fr) (s : UiuaState) : (push_frame fr s).stack.array = s.stack.array := rfl
@[simp] theorem push_frame_dfn (fr) (s : UiuaState) : (push_frame fr s).stack.dfn = s.stack.dfn := rfl
@[simp] theorem push_frame_names (fr) (s : UiuaState) : (push_frame fr s).stack.names = s.stack.names := rfl
@[simp] theorem push_frame_spans (fr) (s : UiuaState) : (push_frame fr s).spans = s.spans := rfl
@[simp] theorem push_frame_globals (fr) (s : UiuaState) : (push_frame fr s).globals = s.globals := rfl
@[simp] theorem push_frame_lower_stacks (fr) (s : UiuaState) : (push_frame fr s).lower_stacks = s.lower_stacks := rfl
@[simp] theorem push_frame_new_functions (fr) (s : UiuaState) : (push_frame fr s).new_functions = s.new_functions := rfl
@[simp] theorem push_frame_new_dfns (fr) (s : UiuaState) : (push_frame fr s).new_dfns = s.new_dfns := rfl
@[simp] theorem push_frame_mode (fr) (s : UiuaState) : (push_frame fr s).mode = s.mode := rfl
@[simp] theorem push_frame_current_imports (fr) (s : UiuaState) : (push_frame fr s).current_imports = s.current_imports := rfl
@[simp] theorem push_frame_imports (fr) (s : UiuaState) : (push_frame fr s).imports = s.imports := rfl

/-! ## Generic helper lemmas -/

theorem getLast?_concat_eq (l : List α) (x : α) : (l ++ [x]).getLast? = some x := by
  simp

theorem dropLast_concat_eq (l : List α) (x : α) : (l ++ [x]).dropLast = l := by
  simp

/-! ## C1 -/

/-- C1 counterexample: calling a non-function with two values on the
stack is NOT the identity: `call_with_span` pops the examined value,
pops once more (discarding the 7), and re-pushes the examined value,
leaving `[5]` where the claim requires `[7, 5]`. -/
theorem c1_counterexample :
    (call_with_span extDefault 1 0 (stateV [Value.num 7, Value.num 5])).2 = .ok () ∧
    (call_with_span extDefault 1 0 (stateV [Value.num 7, Value.num 5])).1.stack.value
      = [Value.num 5] ∧
    [Value.num 5] ≠ [Value.num 7, Value.num 5] := by
  refine ⟨rfl, rfl, by simp⟩

/-- C1 amended: when the popped top value is not a scalar function,
`call_with_span` re-pushes it, but additionally discards the element
beneath it when one exists: from `init ++ [v]` the stack becomes
`init.dropLast ++ [v]` (the identity only when `init` is empty). -/
theorem c1_call_non_function (E : Ext) (fuel call_span : Nat) (s : UiuaState)
    (init : List Value) (v : Value)
    (hstk : s.stack.value = init ++ [v])
    (hnf : ∀ f, v ≠ Value.funcS f) :
    call_with_span E (fuel + 1) call_span s = (setValue (init.dropLast ++ [v]) s, .ok ()) := by
  unfold call_with_span
  rw [hstk, getLast?_concat_eq]
  cases v with
  | funcS f => exact absurd rfl (hnf f)
  | num n => simp [setValue]
  | chr c => simp [setValue]
  | strv t => simp [setValue]
  | arr rows => simp [setValue]
  | funcA fs => simp [setValue]

/-- C1 witness for the amended theorem. -/
theorem c1_witness :
    call_with_span extDefault 3 0 (stateV [Value.num 7, Value.num 5]) =
      (setValue ([Value.num 7].dropLast ++ [Value.num 5])
        (stateV [Value.num 7, Value.num 5]), .ok ()) :=
  c1_call_non_function extDefault 2 0 _ [Value.num 7] (Value.num 5) rfl
    (fun f h => by cases h)

/-! ## C2 -/

/-- C2 counterexample: fusing the six-instruction pattern with a
trailing `Call` primitive produces `If(f1, f2)` — the FIRST pushed
operand is the then-branch — not `If(f2, f1)` as the claim states. -/
theorem c2_counterexample :
    push_instr extDefault
      [.BeginArray, .Push (.funcS f10), .Push (.funcS f20), .EndArray 0,
        .Prim .flip 0, .Prim .pick 0] (.Prim .callP 1) = [.If f10 f20] ∧
    [Instr.If f10 f20] ≠ [Instr.If f20 f10] := by
  refine ⟨rfl, by simp [f10, f20]⟩

/-- C2 amended: when a `Call` primitive is appended after the exact
pattern `BeginArray, Push f1, Push f2, EndArray, Prim Flip, Prim Pick`
with both operands scalar functions, the six instructions are replaced
by `If(f1, f2)`: the FIRST pushed operand becomes the then-branch and
the second the else-branch.  When the two operands are not both scalar
functions, or when the trailing instruction is not a `Prim` at all (so
neither the fusion arm nor the primitive-pair peephole arms can apply),
the `Call` is appended unchanged. -/
theorem c2_if_fusion (E : Ext) (buf : List Instr) (f1 f2 : Function)
    (s3 s4 s5 sp : Nat) :
    (push_instr E (buf ++ [.BeginArray, .Push (.funcS f1), .Push (.funcS f2),
        .EndArray s3, .Prim .flip s4, .Prim .pick s5]) (.Prim .callP sp)
      = buf ++ [.If f1 f2]) ∧
    (∀ v1 v2 : Value, (∀ g1 g2, ¬(v1 = Value.funcS g1 ∧ v2 = Value.funcS g2)) →
      push_instr E (buf ++ [.BeginArray, .Push v1, .Push v2,
          .EndArray s3, .Prim .flip s4, .Prim .pick s5]) (.Prim .callP sp)
        = (buf ++ [.BeginArray, .Push v1, .Push v2,
            .EndArray s3, .Prim .flip s4, .Prim .pick s5]) ++ [.Prim .callP sp]) ∧
    (∀ buf2 : List Instr, (∀ p q, buf2.getLast? ≠ some (Instr.Prim p q)) →
      push_instr E buf2 (.Prim .callP sp) = buf2 ++ [.Prim .callP sp]) := by
  refine ⟨?_, ?_, ?_⟩
  · have h : (buf ++ [Instr.BeginArray, .Push (.funcS f1), .Push (.funcS f2),
        .EndArray s3, .Prim .flip s4, .Prim .pick s5]).reverse =
        Instr.Prim .pick s5 :: Instr.Prim .flip s4 :: Instr.EndArray s3 ::
        Instr.Push (.funcS f2) :: Instr.Push (.funcS f1) :: Instr.BeginArray ::
        buf.reverse := by simp
    unfold push_instr
    rw [h]
    simp
  · intro v1 v2 hnot
    have h : (buf ++ [Instr.BeginArray, .Push v1, .Push v2,
        .EndArray s3, .Prim .flip s4, .Prim .pick s5]).reverse =
        Instr.Prim .pick s5 :: Instr.Prim .flip s4 :: Instr.EndArray s3 ::
        Instr.Push v2 :: Instr.Push v1 :: Instr.BeginArray ::
        buf.reverse := by simp
    unfold push_instr
    rw [h]
    cases v1 <;> cases v2 <;> first
      | rfl
      | exact absurd ⟨rfl, rfl⟩ (hnot _ _)
  · intro buf2 hlast
    have hh : buf2.reverse.head? ≠ some (Instr.Prim Primitive.pick s5) := by
      intro hcon
      exact hlast _ _ (by rw [← List.head?_reverse]; exact hcon)
    unfold push_instr
    cases hb : buf2.reverse with
    | nil => rfl
    | cons hd tl =>
      cases hd with
      | Prim p q =>
        exact absurd (by rw [← List.head?_reverse, hb]; rfl)
          (hlast p q)
      | Push v => rfl
      | BeginArray => rfl
      | EndArray a => rfl
      | Call a => rfl
      | DfnVal a => rfl
      | If a b => rfl

/-- C2 witness for the amended theorem. -/
theorem c2_witness :
    push_instr extDefault ([] ++ [.BeginArray, .Push (.funcS f10), .Push (.funcS f20),
        .EndArray 0, .Prim .flip 0, .Prim .pick 0]) (.Prim .callP 1)
      = [] ++ [.If f10 f20] ∧
    push_instr extDefault [Instr.BeginArray] (.Prim .callP 1)
      = [Instr.BeginArray] ++ [.Prim .callP 1] :=
  ⟨(c2_if_fusion extDefault [] f10 f20 0 0 0 1).1,
   (c2_if_fusion extDefault [] f10 f20 0 0 0 1).2.2 [Instr.BeginArray]
     (fun p q h => by simp at h)⟩

/-! ## C3 -/

/-- C3 counterexample: an `If` instruction pops only ONE value (the
condition).  With stack `[99, 1]` and a then-branch that pushes 10,
the result is `[99, 10]`: the 99 (the claimed "operand") was not
popped, contradicting "pops two values". -/
theorem c3_counterexample :
    (exec_instr extDefault 10 (.If f10 f20) (stateV [Value.num 99, Value.num 1])).2
      = .ok () ∧
    (exec_instr extDefault 10 (.If f10 f20)
      (stateV [Value.num 99, Value.num 1])).1.stack.value
      = [Value.num 99, Value.num 10] ∧
    [Value.num 99, Value.num 10] ≠ [Value.num 10] := by
  refine ⟨rfl, rfl, by simp⟩

/-- C3 amended: `If(then_fn, else_fn)` pops exactly one value, the
condition; when it is 1 it pushes `then_fn` and invokes `call()`
(`call_with_span` at the current span index), when it is 0 it does the
same with `else_fn`, and for any other non-negative integer `n` it
fails with exactly "Index n is out of bounds of length 2 (dimension 1)
in shape [2]", leaving the rest of the stack untouched. -/
theorem c3_if_semantics (E : Ext) (fuel : Nat) (t e : Function) (s : UiuaState)
    (init : List Value) (v : Value) (hstk : s.stack.value = init ++ [v]) :
    (v.asNat = some 1 →
      exec_instr E (fuel + 1) (.If t e) s =
        call_with_span E fuel (span_index (setValue (init ++ [Value.funcS t]) s))
          (setValue (init ++ [Value.funcS t]) s)) ∧
    (v.asNat = some 0 →
      exec_instr E (fuel + 1) (.If t e) s =
        call_with_span E fuel (span_index (setValue (init ++ [Value.funcS e]) s))
          (setValue (init ++ [Value.funcS e]) s)) ∧
    (∀ n, v.asNat = some (n + 2) →
      exec_instr E (fuel + 1) (.If t e) s =
        (setValue init s, .err (run_error (setValue init s)
          ("Index " ++ toString (n + 2) ++
            " is out of bounds of length 2 (dimension 1) in shape [2]")))) := by
  unfold exec_instr
  rw [hstk, getLast?_concat_eq]
  simp only [dropLast_concat_eq]
  refine ⟨?_, ?_, ?_⟩
  · intro h
    rw [h]
    rfl
  · intro h
    rw [h]
    rfl
  · intro n h
    rw [h]

/-- C3 witness for the amended theorem. -/
theorem c3_witness :
    exec_instr extDefault 4 (.If f10 f20) (stateV [Value.num 99, Value.num 1]) =
      call_with_span extDefault 3
        (span_index (setValue ([Value.num 99] ++ [Value.funcS f10])
          (stateV [Value.num 99, Value.num 1])))
        (setValue ([Value.num 99] ++ [Value.funcS f10])
          (stateV [Value.num 99, Value.num 1])) :=
  (c3_if_semantics extDefault 3 f10 f20 _ [Value.num 99] (Value.num 1) rfl).1 rfl

end Uiua

namespace Uiua

/-! ## C4 -/

/-- C4 counterexample: when the scoped body fails, `in_scope` does NOT
reinstate the enclosing scope: the fresh scope (empty value stack) is
still installed and the saved scope is still sitting on
`lower_stacks`, although the enclosing scope's value stack was
`[5]`. -/
theorem c4_counterexample :
    (in_scope extDefault fErr stateA).2 = .err errBoom ∧
    (in_scope extDefault fErr stateA).1.stack.value = [] ∧
    (in_scope extDefault fErr stateA).1.lower_stacks = [stateA.stack] ∧
    stateA.stack.value = [Value.num 5] ∧
    ([] : List Value) ≠ [Value.num 5] := by
  refine ⟨rfl, rfl, rfl, rfl, by simp⟩

/-- C4 amended: when the scoped body returns Ok (and has treated
`lower_stacks` as a stack, leaving it as it found it), `in_scope`
reinstates the enclosing scope exactly — value stack, antistack, array
stack, dfn stack, call stack, names and the saved-scopes stack all as
before — and returns the scope the body built.  When the body returns
Err, the error propagates with the fresh scope still installed and the
saved scope still on the saved-scopes stack. -/
theorem c4_in_scope_ok (E : Ext) {α : Type} (f : UiuaState → UiuaState × RunRes α)
    (s : UiuaState) (a : α) (s2 : UiuaState)
    (hf : f { s with
      lower_stacks := s.lower_stacks ++ [s.stack],
      stack := scope_default E } = (s2, .ok a))
    (hlow : s2.lower_stacks = s.lower_stacks ++ [s.stack]) :
    in_scope E f s =
      ({ s2 with lower_stacks := s.lower_stacks, stack := s.stack }, .ok s2.stack) := by
  unfold in_scope
  dsimp only
  rw [hf]
  dsimp only
  rw [hlow]
  simp

/-- C4 witness for the amended theorem. -/
theorem c4_witness :
    in_scope extDefault fOk state0 =
      ({ state1 with lower_stacks := state0.lower_stacks, stack := state0.stack },
        .ok state1.stack) :=
  c4_in_scope_ok extDefault fOk state0 () state1 rfl rfl

/-! ## C5 -/

/-- C5 counterexample: `other 0` is appended, then `other 1`; both
have equal in/out arity and `other 0` IS declared the inverse of
`other 1` (the claim's symmetric condition holds), yet nothing is
annihilated, because the code only consults the EARLIER primitive's
declared inverse. -/
theorem c5_counterexample :
    push_instr extInvQ [.Prim (.other 0) 0] (.Prim (.other 1) 0)
      = [.Prim (.other 0) 0, .Prim (.other 1) 0] ∧
    extInvQ.pInverse (.other 1) = some (.other 0) ∧
    extInvQ.pArgs (.other 0) = extInvQ.pOuts (.other 0) ∧
    extInvQ.pArgs (.other 1) = extInvQ.pOuts (.other 1) ∧
    [Instr.Prim (.other 0) 0, Instr.Prim (.other 1) 0] ≠ ([] : List Instr) := by
  refine ⟨rfl, rfl, rfl, rfl, by simp⟩

/-- C5 amended: appending `Prim q` to a buffer ending in `Prim p`
removes both exactly when both have equal in/out arity and the EARLIER
primitive `p` declares `q` as its inverse (`p.inverse() == Some(q)` —
the declaration is directional, not "either is the inverse of the
other"), provided the earlier-checked peephole arms do not apply
(`(p, q)` is not `(Reverse, First)` or `(Reverse, Last)`, and not
`(Pick, Call)`, which can trigger if-fusion). -/
theorem c5_inverse_annihilation (E : Ext) (buf : List Instr) (p q : Primitive)
    (sp1 sp2 : Nat)
    (hap : E.pArgs p = E.pOuts p) (haq : E.pArgs q = E.pOuts q)
    (hinv : E.pInverse p = some q)
    (hrf : ¬(p = .reverseP ∧ q = .firstP))
    (hrl : ¬(p = .reverseP ∧ q = .lastP))
    (hpc : ¬(p = .pick ∧ q = .callP)) :
    push_instr E (buf ++ [.Prim p sp1]) (.Prim q sp2) = buf := by
  have h : (buf ++ [Instr.Prim p sp1]).reverse = Instr.Prim p sp1 :: buf.reverse := by
    simp
  unfold push_instr
  rw [h]
  split
  · rename_i heq1 heq2
    have hp : p = Primitive.pick := by
      injection heq1 with h1 h2
      injection h1
    have hq : q = Primitive.callP := by injection heq2
    exact absurd ⟨hp, hq⟩ hpc
  · rename_i topP tspanN restL nwP nspanN hno heq1 heq2
    injection heq1 with h1 h2
    injection h1 with hp hsp
    injection heq2 with hq hsp2
    subst hp hsp hq hsp2
    rw [if_neg hrf, if_neg hrl, if_pos ⟨hap, haq, hinv⟩]
    rw [← h2]
    simp
  · rename_i hne1 hne2
    exact (hne2 p sp1 buf.reverse rfl).elim
  · rename_i hne1 hne2
    exact (hne2 p sp1 buf.reverse q sp2 rfl rfl).elim

/-- C5 witness for the amended theorem. -/
theorem c5_witness :
    push_instr extInvP [[] , [Instr.Prim (.other 0) 0]].flatten (.Prim (.other 1) 0)
      = [] :=
  c5_inverse_annihilation extInvP [] (.other 0) (.other 1) 0 0 rfl rfl
    (by simp [extInvP, extDefault]) (by simp) (by simp) (by simp)

/-! ## C6 -/

/-- C6: calling a scalar function with `dfn_args = Some n` with fewer
than n values fails with exactly "not enough arguments for dfn of n
values" and pushes no dfn frame; with enough values, the last n are
drained, reversed, and become the argument vector of a new dfn frame,
and the new call frame carries `dfn = true`; and popping a finished
frame whose `dfn` flag is set pops the dfn stack in lock-step. -/
theorem c6_dfn_call (E : Ext) (fuel cs : Nat) (s : UiuaState) (f : Function)
    (n : Nat) (init : List Value)
    (hd : f.dfnArgs = some n)
    (hstk : s.stack.value = init ++ [Value.funcS f]) :
    (init.length < n →
      call_with_span E (fuel + 1) cs s =
        (setValue init s, .err (.run (nthSpan s.spans cs)
          ("not enough arguments for dfn of " ++ toString n ++ " values")))) ∧
    (n ≤ init.length →
      call_with_span E (fuel + 1) cs s =
        exec E fuel ⟨f, cs, 0, [], true⟩
          (setDfn (s.stack.dfn ++ [⟨f, (init.drop (init.length - n)).reverse⟩])
            (setValue (init.take (init.length - n)) s))) ∧
    (∀ ret rest fr (st : UiuaState), fr.dfn = true →
      fr.function.instrs.length ≤ fr.pc →
      st.stack.call = rest ++ [fr] → ret < st.stack.call.length →
      exec_loop E (fuel + 1) ret st =
        exec_loop E fuel ret
          (setDfn st.stack.dfn.dropLast (setCall rest st))) := by
  refine ⟨?_, ?_, ?_⟩
  · intro hlt
    unfold call_with_span
    rw [hstk, getLast?_concat_eq]
    simp only [dropLast_concat_eq, hd]
    rw [if_pos]
    · rfl
    · exact hlt
  · intro hge
    unfold call_with_span
    rw [hstk, getLast?_concat_eq]
    simp only [dropLast_concat_eq, hd]
    rw [if_neg]
    · rfl
    · show ¬init.length < n
      omega
  · intro ret rest fr st hdfn hpc hcall hlt
    conv_lhs => rw [exec_loop]
    rw [if_neg (by omega), hcall, getLast?_concat_eq]
    dsimp only
    rw [dropLast_concat_eq, List.get?_eq_none.mpr hpc, hdfn]
    rfl

/-- C6 witness. -/
theorem c6_witness :
    call_with_span extDefault 1 0 (stateV [Value.num 1, Value.funcS fDfn]) =
      (setValue [Value.num 1] (stateV [Value.num 1, Value.funcS fDfn]),
        .err (.run (nthSpan (stateV [Value.num 1, Value.funcS fDfn]).spans 0)
          ("not enough arguments for dfn of " ++ toString 2 ++ " values"))) :=
  (c6_dfn_call extDefault 0 0 _ fDfn 2 [Value.num 1] rfl rfl).1 (by simp)

end Uiua

namespace Uiua

/-! ## C10 -/

theorem modify_last_concat (f : α → α) (l : List α) (x : α) :
    modify_last f (l ++ [x]) = some (l ++ [f x]) := by
  simp [modify_last]

theorem push_span_concat (spi : Nat) (pr : Option Primitive) (s : UiuaState)
    (rest : List StackFrame) (fr : StackFrame) (h : s.stack.call = rest ++ [fr]) :
    push_span spi pr s =
      some (setCall (rest ++ [{ fr with spans := fr.spans ++ [(spi, pr)] }]) s) := by
  simp [push_span, h, modify_last_concat]

theorem pop_span_concat (s : UiuaState)
    (rest : List StackFrame) (fr : StackFrame) (h : s.stack.call = rest ++ [fr]) :
    pop_span s =
      some (setCall (rest ++ [{ fr with spans := fr.spans.dropLast }]) s) := by
  simp [pop_span, h, modify_last_concat]

/-- C10: executing `EndArray` with an empty array stack panics (the
unchecked `unwrap`) rather than returning a runtime error; when a
matching `BeginArray` has left a depth on the array stack the pop
succeeds and never panics (given a live call frame for the span
bookkeeping): the instruction errs with exactly "Array removed
elements" when the recorded depth exceeds the stack height, and any
other error it returns comes from the value library's row combinator,
not from `EndArray` itself. -/
theorem c10_end_array (E : Ext) (fuel spi : Nat) (s : UiuaState) :
    (s.stack.array = [] → exec_instr E (fuel + 1) (.EndArray spi) s = (s, .panic)) ∧
    (∀ arr0 start, s.stack.array = arr0 ++ [start] →
      s.stack.value.length < start →
      exec_instr E (fuel + 1) (.EndArray spi) s =
        (setArray arr0 s, .err (run_error (setArray arr0 s) "Array removed elements"))) ∧
    (∀ arr0 start rest fr, s.stack.array = arr0 ++ [start] →
      start ≤ s.stack.value.length → s.stack.call = rest ++ [fr] →
      (exec_instr E (fuel + 1) (.EndArray spi) s).2 ≠ .panic ∧
      (∀ e, (exec_instr E (fuel + 1) (.EndArray spi) s).2 = .err e →
        E.fromRowValues ((s.stack.value.drop start).reverse)
          (setCall (rest ++ [{ fr with spans := fr.spans ++ [(spi, none)] }])
            (setValue (s.stack.value.take start) (setArray arr0 s))) = .error e)) := by
  refine ⟨?_, ?_, ?_⟩
  · intro h
    unfold exec_instr
    rw [h]
    rfl
  · intro arr0 start h hlt
    unfold exec_instr
    rw [h, getLast?_concat_eq]
    dsimp only
    rw [dropLast_concat_eq, if_pos]
    exact hlt
  · intro arr0 start rest fr h hle hcall
    unfold exec_instr
    rw [h, getLast?_concat_eq]
    dsimp only
    rw [dropLast_concat_eq]
    simp only [setArray_value]
    rw [if_neg (by omega)]
    rw [push_span_concat spi none
      (setValue (List.take start s.stack.value) (setArray arr0 s)) rest fr hcall]
    dsimp only
    cases hrow : E.fromRowValues (List.drop start s.stack.value).reverse
        (setCall (rest ++ [{ fr with spans := fr.spans ++ [(spi, none)] }])
          (setValue (List.take start s.stack.value) (setArray arr0 s))) with
    | error e =>
      refine ⟨by simp, ?_⟩
      intro e2 he2
      injection he2 with he2
      rw [← he2]
    | ok v =>
      rw [pop_span_concat _ rest { fr with spans := fr.spans ++ [(spi, none)] } rfl]
      dsimp only
      refine ⟨by simp, ?_⟩
      intro e2 he2
      simp at he2

/-- C10 witness. -/
theorem c10_witness :
    exec_instr extDefault 1 (.EndArray 0) state0 = (state0, .panic) ∧
    (exec_instr extDefault 1 (.EndArray 0) stateEA).2 ≠ .panic :=
  ⟨(c10_end_array extDefault 0 0 state0).1 rfl,
   ((c10_end_array extDefault 0 0 stateEA).2.2 [] 0 [] frame0 rfl (by simp) rfl).1⟩

end Uiua

namespace Uiua

/-! ## Result and list helper lemmas -/

@[simp] theorem done_ok (a : α) : (RunRes.ok a).done = true := rfl

@[simp] theorem done_err (e : UiuaError) : (RunRes.err e : RunRes α).done = true := rfl

@[simp] theorem done_panic : (RunRes.panic : RunRes α).done = false := rfl

@[simp] theorem done_fuelOut : (RunRes.fuelOut : RunRes α).done = false := rfl

theorem globalsExtend_refl (s : UiuaState) : globalsExtend s s := ⟨[], by simp⟩

theorem globalsExtend_trans {a b c : UiuaState} (h1 : globalsExtend a b)
    (h2 : globalsExtend b c) : globalsExtend a c := by
  obtain ⟨t1, h1⟩ := h1
  obtain ⟨t2, h2⟩ := h2
  exact ⟨t1 ++ t2, by rw [h2, h1, List.append_assoc]⟩

theorem eq_dropLast_concat_of_getLast? {xs : List α} {x : α}
    (h : xs.getLast? = some x) : xs = xs.dropLast ++ [x] := by
  have hne : xs ≠ [] := by rintro rfl; simp at h
  have h2 : xs.getLast hne = x := by
    rw [List.getLast?_eq_getLast xs hne] at h
    injection h
  rw [← h2]
  exact (List.dropLast_append_getLast hne).symm

theorem modify_last_eq_some {f : α → α} {xs ys : List α}
    (h : modify_last f xs = some ys) :
    ∃ l x, xs = l ++ [x] ∧ ys = l ++ [f x] := by
  unfold modify_last at h
  cases hg : xs.getLast? with
  | none => rw [hg] at h; cases h
  | some x =>
    rw [hg] at h
    injection h with h1
    exact ⟨xs.dropLast, x, eq_dropLast_concat_of_getLast? hg, h1.symm⟩

theorem modify_last_eq_none {f : α → α} {xs : List α}
    (h : modify_last f xs = none) : xs = [] := by
  unfold modify_last at h
  cases hg : xs.getLast? with
  | none => exact List.getLast?_eq_none.mp hg
  | some x => rw [hg] at h; cases h

theorem concat_inj {l1 l2 : List α} {a b : α} (h : l1 ++ [a] = l2 ++ [b]) :
    l1 = l2 ∧ a = b := by
  constructor
  · have h1 := congrArg List.dropLast h
    simpa using h1
  · have h2 := congrArg List.getLast? h
    simpa using h2

theorem push_span_eq_some {spi : Nat} {pr : Option Primitive} {s s3 : UiuaState}
    (h : push_span spi pr s = some s3) :
    ∃ l fr, s.stack.call = l ++ [fr] ∧
      s3 = setCall (l ++ [{ fr with spans := fr.spans ++ [(spi, pr)] }]) s := by
  unfold push_span at h
  cases hm : modify_last (fun fr => { fr with spans := fr.spans ++ [(spi, pr)] })
      s.stack.call with
  | none => rw [hm] at h; cases h
  | some c =>
    rw [hm] at h
    injection h with h1
    obtain ⟨l, x, hx, hc⟩ := modify_last_eq_some hm
    exact ⟨l, x, hx, by rw [← h1, hc]⟩

theorem pop_span_eq_some {s s4 : UiuaState}
    (h : pop_span s = some s4) :
    ∃ l fr, s.stack.call = l ++ [fr] ∧
      s4 = setCall (l ++ [{ fr with spans := fr.spans.dropLast }]) s := by
  unfold pop_span at h
  cases hm : modify_last (fun fr => { fr with spans := fr.spans.dropLast })
      s.stack.call with
  | none => rw [hm] at h; cases h
  | some c =>
    rw [hm] at h
    injection h with h1
    obtain ⟨l, x, hx, hc⟩ := modify_last_eq_some hm
    exact ⟨l, x, hx, by rw [← h1, hc]⟩

theorem push_span_eq_none {spi : Nat} {pr : Option Primitive} {s : UiuaState}
    (h : push_span spi pr s = none) : s.stack.call = [] := by
  unfold push_span at h
  cases hm : modify_last (fun fr => { fr with spans := fr.spans ++ [(spi, pr)] })
      s.stack.call with
  | none => exact modify_last_eq_none hm
  | some c => rw [hm] at h; cases h

end Uiua

namespace Uiua

/-- Core preservation properties of the executor, proved together by
induction on the fuel: the globals table only grows (through any
outcome), and whenever a run "returns" in the Rust sense (Ok or Err),
`exec` and `call_with_span` leave the call stack and span table
exactly as they found them, a single instruction leaves every frame
but the top one untouched (and changes at most the span bookkeeping of
the top frame), and the `exec` loop returns with the call stack cut
back to exactly the entry height. -/
theorem exec_preservation (E : Ext) (hE : tamePrims E) :
    ∀ fuel : Nat,
    (∀ fr st s' r, exec E fuel fr st = (s', r) →
      globalsExtend st s' ∧
      (r.done = true → s'.stack.call = st.stack.call ∧ s'.spans = st.spans)) ∧
    (∀ cs st s' r, call_with_span E fuel cs st = (s', r) →
      globalsExtend st s' ∧
      (r.done = true → s'.stack.call = st.stack.call ∧ s'.spans = st.spans)) ∧
    (∀ i st s' r, exec_instr E fuel i st = (s', r) →
      globalsExtend st s' ∧
      (r.done = true → s'.spans = st.spans ∧
        (st.stack.call = [] → s'.stack.call = []) ∧
        (∀ rest fr, st.stack.call = rest ++ [fr] →
          ∃ sps, s'.stack.call = rest ++ [{ fr with spans := sps }]))) ∧
    (∀ ret st s' r, ret ≤ st.stack.call.length → exec_loop E fuel ret st = (s', r) →
      globalsExtend st s' ∧
      (r.done = true → s'.stack.call = st.stack.call.take ret ∧ s'.spans = st.spans)) := by
  intro fuel
  induction fuel with
  | zero =>
    refine ⟨?_, ?_, ?_, ?_⟩
    · intro fr st s' r h
      injection h with h1 h2
      subst h1; subst h2
      exact ⟨globalsExtend_refl st, by simp⟩
    · intro cs st s' r h
      injection h with h1 h2
      subst h1; subst h2
      exact ⟨globalsExtend_refl st, by simp⟩
    · intro i st s' r h
      injection h with h1 h2
      subst h1; subst h2
      exact ⟨globalsExtend_refl st, by simp⟩
    · intro ret st s' r _ h
      injection h with h1 h2
      subst h1; subst h2
      exact ⟨globalsExtend_refl st, by simp⟩
  | succ fuel ih =>
    obtain ⟨ihA, ihB, ihC, ihD⟩ := ih
    have hA : ∀ fr st s' r, exec E (fuel + 1) fr st = (s', r) →
        globalsExtend st s' ∧
        (r.done = true → s'.stack.call = st.stack.call ∧ s'.spans = st.spans) := by
      intro fr st s' r h
      have h' : exec_loop E fuel st.stack.call.length (push_frame fr st) = (s', r) := h
      obtain ⟨hg1, hdone⟩ := ihD st.stack.call.length (push_frame fr st) s' r
        (by simp) h'
      refine ⟨?_, ?_⟩
      · obtain ⟨t, ht⟩ := hg1
        exact ⟨t, by simpa using ht⟩
      · intro hd
        obtain ⟨hcall, hspans⟩ := hdone hd
        constructor
        · rw [hcall]
          simp [List.take_left]
        · simpa using hspans
    have hB : ∀ cs st s' r, call_with_span E (fuel + 1) cs st = (s', r) →
        globalsExtend st s' ∧
        (r.done = true → s'.stack.call = st.stack.call ∧ s'.spans = st.spans) := by
      intro cs st s' r h
      unfold call_with_span at h
      cases hv : st.stack.value.getLast? with
      | none =>
        rw [hv] at h
        dsimp only at h
        injection h with h1 h2
        subst h1; subst h2
        exact ⟨globalsExtend_refl st, fun _ => ⟨rfl, rfl⟩⟩
      | some v =>
        rw [hv] at h
        cases v with
        | funcS f =>
          dsimp only at h
          cases hdf : f.dfnArgs with
          | some n =>
            rw [hdf] at h
            dsimp only at h
            simp only [setValue_value] at h
            by_cases hlt : st.stack.value.dropLast.length < n
            · rw [if_pos hlt] at h
              injection h with h1 h2
              subst h1; subst h2
              exact ⟨⟨[], by simp⟩, fun _ => ⟨by simp, by simp⟩⟩
            · rw [if_neg hlt] at h
              obtain ⟨hg1, hdone⟩ := ihA _ _ _ _ h
              refine ⟨?_, ?_⟩
              · obtain ⟨t, ht⟩ := hg1
                exact ⟨t, by simpa using ht⟩
              · intro hd
                obtain ⟨hcall, hspans⟩ := hdone hd
                exact ⟨by simpa using hcall, by simpa using hspans⟩
          | none =>
            rw [hdf] at h
            dsimp only at h
            obtain ⟨hg1, hdone⟩ := ihA _ _ _ _ h
            refine ⟨?_, ?_⟩
            · obtain ⟨t, ht⟩ := hg1
              exact ⟨t, by simpa using ht⟩
            · intro hd
              obtain ⟨hcall, hspans⟩ := hdone hd
              exact ⟨by simpa using hcall, by simpa using hspans⟩
        | num n =>
          dsimp only at h
          injection h with h1 h2
          subst h1; subst h2
          exact ⟨⟨[], by simp⟩, fun _ => ⟨by simp, by simp⟩⟩
        | chr c =>
          dsimp only at h
          injection h with h1 h2
          subst h1; subst h2
          exact ⟨⟨[], by simp⟩, fun _ => ⟨by simp, by simp⟩⟩
        | strv t =>
          dsimp only at h
          injection h with h1 h2
          subst h1; subst h2
          exact ⟨⟨[], by simp⟩, fun _ => ⟨by simp, by simp⟩⟩
        | arr rows =>
          dsimp only at h
          injection h with h1 h2
          subst h1; subst h2
          exact ⟨⟨[], by simp⟩, fun _ => ⟨by simp, by simp⟩⟩
        | funcA fs =>
          dsimp only at h
          injection h with h1 h2
          subst h1; subst h2
          exact ⟨⟨[], by simp⟩, fun _ => ⟨by simp, by simp⟩⟩
    have hC : ∀ i st s' r, exec_instr E (fuel + 1) i st = (s', r) →
        globalsExtend st s' ∧
        (r.done = true → s'.spans = st.spans ∧
          (st.stack.call = [] → s'.stack.call = []) ∧
          (∀ rest fr, st.stack.call = rest ++ [fr] →
            ∃ sps, s'.stack.call = rest ++ [{ fr with spans := sps }])) := by
      intro i st s' r h
      unfold exec_instr at h
      cases i with
      | Push v =>
        dsimp only at h
        injection h with h1 h2
        subst h1; subst h2
        refine ⟨⟨[], by simp⟩, fun _ => ⟨by simp, fun hc => by simpa using hc, ?_⟩⟩
        intro rest fr hrest
        exact ⟨fr.spans, hrest⟩
      | BeginArray =>
        dsimp only at h
        injection h with h1 h2
        subst h1; subst h2
        refine ⟨⟨[], by simp⟩, fun _ => ⟨by simp, fun hc => by simpa using hc, ?_⟩⟩
        intro rest fr hrest
        exact ⟨fr.spans, hrest⟩
      | DfnVal n =>
        dsimp only at h
        cases hdl : st.stack.dfn.getLast? with
        | none =>
          rw [hdl] at h
          injection h with h1 h2
          subst h1; subst h2
          exact ⟨globalsExtend_refl st, by simp⟩
        | some dfr =>
          rw [hdl] at h
          dsimp only at h
          cases hag : dfr.args.get? n with
          | none =>
            rw [hag] at h
            injection h with h1 h2
            subst h1; subst h2
            exact ⟨globalsExtend_refl st, by simp⟩
          | some v =>
            rw [hag] at h
            injection h with h1 h2
            subst h1; subst h2
            refine ⟨⟨[], by simp⟩, fun _ => ⟨by simp, fun hc => by simpa using hc, ?_⟩⟩
            intro rest fr hrest
            exact ⟨fr.spans, hrest⟩
      | Call spi =>
        obtain ⟨hg1, hdone⟩ := ihB spi st s' r h
        refine ⟨hg1, ?_⟩
        intro hd
        obtain ⟨hcall, hspans⟩ := hdone hd
        refine ⟨hspans, fun hc => by rw [hcall, hc], ?_⟩
        intro rest fr hrest
        exact ⟨fr.spans, by rw [hcall]; exact hrest⟩
      | If t e =>
        dsimp only at h
        cases hv : st.stack.value.getLast? with
        | none =>
          rw [hv] at h
          injection h with h1 h2
          subst h1; subst h2
          exact ⟨globalsExtend_refl st, fun _ => ⟨rfl, fun hc => hc, fun rest fr hrest =>
            ⟨fr.spans, hrest⟩⟩⟩
        | some v =>
          rw [hv] at h
          dsimp only at h
          cases hn : v.asNat with
          | none =>
            rw [hn] at h
            injection h with h1 h2
            subst h1; subst h2
            refine ⟨⟨[], by simp⟩, fun _ => ⟨by simp, fun hc => by simpa using hc, ?_⟩⟩
            intro rest fr hrest
            exact ⟨fr.spans, hrest⟩
          | some cond =>
            rw [hn] at h
            match cond, h with
            | 0, h =>
              obtain ⟨hg1, hdone⟩ := ihB _ _ _ _ h
              refine ⟨?_, ?_⟩
              · obtain ⟨t2, ht⟩ := hg1
                exact ⟨t2, by simpa using ht⟩
              · intro hd
                obtain ⟨hcall, hspans⟩ := hdone hd
                refine ⟨by simpa using hspans, fun hc => by
                  rw [hcall]; simpa using hc, ?_⟩
                intro rest fr hrest
                exact ⟨fr.spans, by rw [hcall]; simpa using hrest⟩
            | 1, h =>
              obtain ⟨hg1, hdone⟩ := ihB _ _ _ _ h
              refine ⟨?_, ?_⟩
              · obtain ⟨t2, ht⟩ := hg1
                exact ⟨t2, by simpa using ht⟩
              · intro hd
                obtain ⟨hcall, hspans⟩ := hdone hd
                refine ⟨by simpa using hspans, fun hc => by
                  rw [hcall]; simpa using hc, ?_⟩
                intro rest fr hrest
                exact ⟨fr.spans, by rw [hcall]; simpa using hrest⟩
            | (m + 2), h =>
              injection h with h1 h2
              subst h1; subst h2
              refine ⟨⟨[], by simp⟩, fun _ => ⟨by simp, fun hc => by simpa using hc, ?_⟩⟩
              intro rest fr hrest
              exact ⟨fr.spans, hrest⟩
      | EndArray spi =>
        dsimp only at h
        cases hal : st.stack.array.getLast? with
        | none =>
          rw [hal] at h
          injection h with h1 h2
          subst h1; subst h2
          exact ⟨globalsExtend_refl st, by simp⟩
        | some start =>
          rw [hal] at h
          dsimp only at h
          simp only [setArray_value] at h
          by_cases hlen : st.stack.value.length < start
          · rw [if_pos hlen] at h
            injection h with h1 h2
            subst h1; subst h2
            refine ⟨⟨[], by simp⟩, fun _ => ⟨by simp, fun hc => by simpa using hc, ?_⟩⟩
            intro rest fr hrest
            exact ⟨fr.spans, hrest⟩
          · rw [if_neg hlen] at h
            cases hps : push_span spi none
                (setValue (List.take start st.stack.value)
                  (setArray st.stack.array.dropLast st)) with
            | none =>
              rw [hps] at h
              injection h with h1 h2
              subst h1; subst h2
              exact ⟨⟨[], by simp⟩, by simp⟩
            | some s3 =>
              rw [hps] at h
              dsimp only at h
              obtain ⟨l, x, hx, hs3⟩ := push_span_eq_some hps
              have hxc : st.stack.call = l ++ [x] := by simpa using hx
              subst hs3
              cases hrow : E.fromRowValues (List.drop start st.stack.value).reverse
                  (setCall (l ++ [{ x with spans := x.spans ++ [(spi, none)] }])
                    (setValue (List.take start st.stack.value)
                      (setArray st.stack.array.dropLast st))) with
              | error e2 =>
                rw [hrow] at h
                injection h with h1 h2
                subst h1; subst h2
                refine ⟨⟨[], by simp⟩, fun _ => ⟨by simp, ?_, ?_⟩⟩
                · intro hc
                  rw [hc] at hxc
                  simp at hxc
                · intro rest fr hrest
                  rw [hxc] at hrest
                  obtain ⟨hl, hfr⟩ := concat_inj hrest
                  refine ⟨fr.spans ++ [(spi, none)], ?_⟩
                  simp only [setCall_call]
                  rw [hl, hfr]
              | ok v =>
                rw [hrow] at h
                rw [pop_span_concat _ l { x with spans := x.spans ++ [(spi, none)] } rfl] at h
                dsimp only at h
                injection h with h1 h2
                subst h1; subst h2
                refine ⟨⟨[], by simp⟩, fun _ => ⟨by simp, ?_, ?_⟩⟩
                · intro hc
                  rw [hc] at hxc
                  simp at hxc
                · intro rest fr hrest
                  rw [hxc] at hrest
                  obtain ⟨hl, hfr⟩ := concat_inj hrest
                  refine ⟨(fr.spans ++ [(spi, none)]).dropLast, ?_⟩
                  simp only [setValue_call, setCall_call]
                  rw [hl, hfr]
      | Prim p spi =>
        dsimp only at h
        cases hps : push_span spi (some p) st with
        | none =>
          rw [hps] at h
          injection h with h1 h2
          subst h1; subst h2
          exact ⟨globalsExtend_refl st, by simp⟩
        | some s1 =>
          rw [hps] at h
          dsimp only at h
          obtain ⟨l, x, hx, hs1⟩ := push_span_eq_some hps
          have hxc : st.stack.call = l ++ [x] := hx
          subst hs1
          rcases hpr : E.primRun p (setCall (l ++ [{ x with
              spans := x.spans ++ [(spi, some p)] }]) st) with ⟨s2, r2⟩
          rw [hpr] at h
          obtain ⟨hpc2, hpsp2, hpg2⟩ := hE p (setCall (l ++ [{ x with
              spans := x.spans ++ [(spi, some p)] }]) st)
          rw [hpr] at hpc2 hpsp2 hpg2
          cases r2 with
          | ok a =>
            dsimp only at h
            cases hpop : pop_span s2 with
            | none =>
              rw [hpop] at h
              injection h with h1 h2
              subst h1; subst h2
              refine ⟨?_, by simp⟩
              exact globalsExtend_trans ⟨[], by simp⟩ hpg2
            | some s3 =>
              rw [hpop] at h
              injection h with h1 h2
              subst h1; subst h2
              obtain ⟨l2, x2, hx2, hs3⟩ := pop_span_eq_some hpop
              rw [hpc2] at hx2
              simp only [setCall_call] at hx2
              obtain ⟨hl2, hx2e⟩ := concat_inj hx2.symm
              subst hs3
              refine ⟨?_, ?_⟩
              · exact globalsExtend_trans ⟨[], by simp⟩ hpg2
              · intro _
                refine ⟨by simpa using hpsp2, ?_, ?_⟩
                · intro hc
                  rw [hc] at hxc
                  simp at hxc
                · intro rest fr hrest
                  rw [hxc] at hrest
                  obtain ⟨hl, hfr⟩ := concat_inj hrest
                  refine ⟨(fr.spans ++ [(spi, some p)]).dropLast, ?_⟩
                  simp only [setCall_call]
                  rw [hl2, hx2e, hl, hfr]
          | err e2 =>
            dsimp only at h
            injection h with h1 h2
            subst h1; subst h2
            refine ⟨globalsExtend_trans ⟨[], by simp⟩ hpg2, ?_⟩
            intro _
            refine ⟨by simpa using hpsp2, ?_, ?_⟩
            · intro hc
              rw [hc] at hxc
              simp at hxc
            · intro rest fr hrest
              rw [hxc] at hrest
              obtain ⟨hl, hfr⟩ := concat_inj hrest
              refine ⟨fr.spans ++ [(spi, some p)], ?_⟩
              rw [hpc2]
              simp only [setCall_call]
              rw [hl, hfr]
          | panic =>
            dsimp only at h
            injection h with h1 h2
            subst h1; subst h2
            exact ⟨globalsExtend_trans ⟨[], by simp⟩ hpg2, by simp⟩
          | fuelOut =>
            dsimp only at h
            injection h with h1 h2
            subst h1; subst h2
            exact ⟨globalsExtend_trans ⟨[], by simp⟩ hpg2, by simp⟩
    have hD : ∀ ret st s' r, ret ≤ st.stack.call.length →
        exec_loop E (fuel + 1) ret st = (s', r) →
        globalsExtend st s' ∧
        (r.done = true → s'.stack.call = st.stack.call.take ret ∧ s'.spans = st.spans) := by
      intro ret st s' r hret h
      unfold exec_loop at h
      by_cases hle : st.stack.call.length ≤ ret
      · rw [if_pos hle] at h
        injection h with h1 h2
        subst h1; subst h2
        refine ⟨globalsExtend_refl st, fun _ => ⟨?_, rfl⟩⟩
        rw [List.take_of_length_le hle]
      · rw [if_neg hle] at h
        cases hcl : st.stack.call.getLast? with
        | none =>
          rw [hcl] at h
          dsimp only at h
          injection h with h1 h2
          subst h1; subst h2
          exact ⟨globalsExtend_refl st, by simp⟩
        | some frame =>
          rw [hcl] at h
          dsimp only at h
          have hdec : st.stack.call = st.stack.call.dropLast ++ [frame] :=
            eq_dropLast_concat_of_getLast? hcl
          have hlen2 : ret ≤ st.stack.call.dropLast.length := by
            have := List.length_dropLast st.stack.call
            omega
          cases hfetch : frame.function.instrs.get? frame.pc with
          | none =>
            rw [hfetch] at h
            dsimp only at h
            by_cases hdfn : frame.dfn = true
            · rw [if_pos hdfn] at h
              obtain ⟨hg1, hdone⟩ := ihD ret _ s' r (by simpa using hlen2) h
              refine ⟨?_, ?_⟩
              · obtain ⟨t, ht⟩ := hg1
                exact ⟨t, by simpa using ht⟩
              · intro hd
                obtain ⟨hcall, hspans⟩ := hdone hd
                refine ⟨?_, by simpa using hspans⟩
                rw [hcall]
                simp only [setDfn_call, setCall_call]
                conv_rhs => rw [hdec]
                rw [List.take_append_of_le_length hlen2]
            · rw [if_neg hdfn] at h
              obtain ⟨hg1, hdone⟩ := ihD ret _ s' r (by simpa using hlen2) h
              refine ⟨?_, ?_⟩
              · obtain ⟨t, ht⟩ := hg1
                exact ⟨t, by simpa using ht⟩
              · intro hd
                obtain ⟨hcall, hspans⟩ := hdone hd
                refine ⟨?_, by simpa using hspans⟩
                rw [hcall]
                simp only [setCall_call]
                conv_rhs => rw [hdec]
                rw [List.take_append_of_le_length hlen2]
          | some instr =>
            rw [hfetch] at h
            dsimp only at h
            rcases hi : exec_instr E fuel instr st with ⟨s1, r1⟩
            rw [hi] at h
            obtain ⟨hgi, hci⟩ := ihC instr st s1 r1 hi
            cases r1 with
            | ok a =>
              dsimp only at h
              obtain ⟨hsp1, hnil, hshape⟩ := hci (by simp)
              obtain ⟨sps, hs1call⟩ := hshape _ _ hdec
              rw [hs1call, modify_last_concat] at h
              dsimp only at h
              obtain ⟨hg2, hdone⟩ := ihD ret _ s' r
                (by simp only [setCall_call, List.length_append, List.length_cons,
                  List.length_nil]; omega) h
              refine ⟨?_, ?_⟩
              · refine globalsExtend_trans hgi ?_
                obtain ⟨t2, ht2⟩ := hg2
                exact ⟨t2, by simpa using ht2⟩
              · intro hd
                obtain ⟨hcall, hspans⟩ := hdone hd
                constructor
                · rw [hcall]
                  simp only [setCall_call]
                  rw [List.take_append_of_le_length hlen2]
                  conv_rhs => rw [hdec]
                  rw [List.take_append_of_le_length hlen2]
                · rw [hspans]
                  simpa using hsp1
            | err e =>
              dsimp only at h
              injection h with h1 h2
              subst h1; subst h2
              obtain ⟨hsp1, hnil, hshape⟩ := hci (by simp)
              obtain ⟨sps, hs1call⟩ := hshape _ _ hdec
              refine ⟨hgi, fun _ => ⟨?_, by simpa using hsp1⟩⟩
              simp only [setCall_call]
              rw [hs1call, List.take_append_of_le_length hlen2]
              conv_rhs => rw [hdec]
              rw [List.take_append_of_le_length hlen2]
            | panic =>
              injection h with h1 h2
              subst h1; subst h2
              exact ⟨hgi, by simp⟩
            | fuelOut =>
              injection h with h1 h2
              subst h1; subst h2
              exact ⟨hgi, by simp⟩
    exact ⟨hA, hB, hC, hD⟩

end Uiua

namespace Uiua

/-! ## C7 -/

/-- C7: whenever `exec` returns — by normal completion (`ok`) or by an
error (`err`), the two "done" outcomes — the call stack is exactly what
it was on entry: every frame pushed above the entry height has been
unwound (the primitive library being well-behaved per its interface). -/
theorem c7_call_stack_balance (E : Ext) (hE : tamePrims E) (fuel : Nat)
    (frame : StackFrame) (s s' : UiuaState) (r : RunRes Unit)
    (h : exec E fuel frame s = (s', r)) (hdone : r.done = true) :
    s'.stack.call = s.stack.call :=
  ((((exec_preservation E hE fuel).1) frame s s' r h).2 hdone).1

/-- C7 witness. -/
theorem c7_witness :
    (exec extDefault 5 frame0 state0).2.done = true ∧
    (exec extDefault 5 frame0 state0).1.stack.call = state0.stack.call :=
  ⟨rfl, c7_call_stack_balance extDefault
    (fun p st => ⟨rfl, rfl, ⟨[], by simp [extDefault]⟩⟩) 5 frame0 state0 _ _ rfl rfl⟩

/-! ## C9 -/

theorem traceOf_trace_error (spans : List Span) (e0 : UiuaError) (fr : StackFrame) :
    traceOf (trace_error spans e0 fr) =
      traceOf e0 ++ prim_trace_entries spans fr.spans ++
        [⟨fr.function.id, nthSpan spans fr.call_span⟩] := by
  unfold trace_error traceOf
  cases e0 <;> simp

theorem exec_loop_stop {E : Ext} {fuel ret : Nat} {st : UiuaState}
    (h : st.stack.call.length ≤ ret) :
    exec_loop E fuel ret st = (st, .ok ()) ∨
      exec_loop E fuel ret st = (st, .fuelOut) := by
  cases fuel with
  | zero => exact .inr rfl
  | succ f =>
    refine .inl ?_
    unfold exec_loop
    rw [if_pos h]

/-- Error shape of one `exec_loop` run: the error returned is
`trace_error` of some inner error with a frame agreeing with the
entered one on function, call span and dfn flag. -/
theorem exec_loop_trace (E : Ext) (hE : tamePrims E) :
    ∀ fuel ret (st s' : UiuaState) (e : UiuaError) rest fr0,
      st.stack.call = rest ++ [fr0] → rest.length = ret →
      exec_loop E fuel ret st = (s', .err e) →
      ∃ e0 p2 sps, e = trace_error st.spans e0
        ⟨fr0.function, fr0.call_span, p2, sps, fr0.dfn⟩ := by
  intro fuel
  induction fuel with
  | zero =>
    intro ret st s' e rest fr0 hrest hret h
    injection h with h1 h2
    exact RunRes.noConfusion h2
  | succ fuel ih =>
    intro ret st s' e rest fr0 hrest hret h
    unfold exec_loop at h
    rw [if_neg (by rw [hrest]; simp [List.length_append]; omega)] at h
    have hgl : st.stack.call.getLast? = some fr0 := by rw [hrest]; simp
    rw [hgl] at h
    dsimp only at h
    cases hfetch : fr0.function.instrs.get? fr0.pc with
    | none =>
      rw [hfetch] at h
      dsimp only at h
      have hdl : st.stack.call.dropLast = rest := by rw [hrest]; simp
      have hstop : ∀ st2 : UiuaState, st2.stack.call.length ≤ ret →
          exec_loop E fuel ret st2 = (s', .err e) → False := by
        intro st2 hl2 hh
        rcases @exec_loop_stop E fuel ret st2 hl2 with hs | hs <;>
        · rw [hs] at hh
          injection hh with hh1 hh2
          exact RunRes.noConfusion hh2
      by_cases hdfn : fr0.dfn = true
      · rw [if_pos hdfn] at h
        exact (hstop _ (by simp [hdl, hret]) h).elim
      · rw [if_neg hdfn] at h
        exact (hstop _ (by simp [hdl, hret]) h).elim
    | some instr =>
      rw [hfetch] at h
      dsimp only at h
      rcases hi : exec_instr E fuel instr st with ⟨s1, r1⟩
      rw [hi] at h
      obtain ⟨hgi, hci⟩ := (exec_preservation E hE fuel).2.2.1 instr st s1 r1 hi
      cases r1 with
      | ok a =>
        dsimp only at h
        obtain ⟨hsp1, hnil, hshape⟩ := hci (by simp)
        obtain ⟨sps, hs1call⟩ := hshape rest fr0 hrest
        rw [hs1call, modify_last_concat] at h
        dsimp only at h
        obtain ⟨e0, p2, sps2, he⟩ := ih ret _ s' e rest
          ⟨fr0.function, fr0.call_span, fr0.pc + 1, sps, fr0.dfn⟩ (by simp) hret h
        refine ⟨e0, p2, sps2, ?_⟩
        simp only [setCall_spans] at he
        rw [hsp1] at he
        exact he
      | err e1 =>
        dsimp only at h
        injection h with h1 h2
        injection h2 with h2
        obtain ⟨hsp1, hnil, hshape⟩ := hci (by simp)
        obtain ⟨sps, hs1call⟩ := hshape rest fr0 hrest
        refine ⟨e1, fr0.pc, sps, ?_⟩
        rw [← h2]
        rw [hs1call, ← hret, List.drop_left]
        simp only [List.foldl_cons, List.foldl_nil]
        simp only [setCall_spans]
        rw [hsp1]
      | panic =>
        dsimp only at h
        injection h with h1 h2
        exact RunRes.noConfusion h2
      | fuelOut =>
        dsimp only at h
        injection h with h1 h2
        exact RunRes.noConfusion h2

/-- C9: an error escaping `exec` is `trace_error` applied to the inner
error (whose own trace, built by more deeply nested frames, it
extends): the trace lists the entered frame's pending primitive spans
in order, then the frame's own identity entry, strictly after every
entry of the more deeply nested frames — nested-to-outer order. -/
theorem c9_error_trace (E : Ext) (hE : tamePrims E) (fuel : Nat)
    (frame : StackFrame) (st s' : UiuaState) (e : UiuaError)
    (h : exec E fuel frame st = (s', .err e)) :
    ∃ e0 p2 sps,
      e = trace_error st.spans e0
        ⟨frame.function, frame.call_span, p2, sps, frame.dfn⟩ ∧
      traceOf e = traceOf e0 ++ prim_trace_entries st.spans sps ++
        [⟨frame.function.id, nthSpan st.spans frame.call_span⟩] := by
  cases fuel with
  | zero =>
    injection h with h1 h2
    exact (RunRes.noConfusion h2)
  | succ fuel =>
    have h' : exec_loop E fuel st.stack.call.length (push_frame frame st) =
        (s', .err e) := h
    obtain ⟨e0, p2, sps, he⟩ := exec_loop_trace E hE fuel st.stack.call.length
      (push_frame frame st) s' e st.stack.call frame (by simp) rfl h'
    simp only [push_frame_spans] at he
    refine ⟨e0, p2, sps, he, ?_⟩
    rw [he, traceOf_trace_error]

/-- C9 witness. -/
theorem c9_witness :
    (exec extDefault 5 frame9 state0).2 = .err e9 ∧
    (∃ e0 p2 sps,
      e9 = trace_error state0.spans e0
        ⟨frame9.function, frame9.call_span, p2, sps, frame9.dfn⟩ ∧
      traceOf e9 = traceOf e0 ++ prim_trace_entries state0.spans sps ++
        [⟨frame9.function.id, nthSpan state0.spans frame9.call_span⟩]) :=
  ⟨rfl, c9_error_trace extDefault (fun p st => ⟨rfl, rfl, ⟨[], by simp [extDefault]⟩⟩) 5 frame9
    state0 (exec extDefault 5 frame9 state0).1 e9 rfl⟩

end Uiua

namespace Uiua

/-! ## C8 -/

theorem rbind_globals {α β : Type} (x : UiuaState × RunRes α)
    (f : α → UiuaState → UiuaState × RunRes β)
    (hf : ∀ a s1, x = (s1, .ok a) → (f a s1).1.globals = s1.globals) :
    (rbind x f).1.globals = x.1.globals := by
  rcases x with ⟨s1, r1⟩
  cases r1 with
  | ok a => exact hf a s1 rfl
  | err e => rfl
  | panic => rfl
  | fuelOut => rfl

theorem rbind_globalsExtend {α β : Type} {s0 : UiuaState} (x : UiuaState × RunRes α)
    (f : α → UiuaState → UiuaState × RunRes β)
    (hx : globalsExtend s0 x.1)
    (hf : ∀ a s1, x = (s1, .ok a) → globalsExtend s1 (f a s1).1) :
    globalsExtend s0 (rbind x f).1 := by
  rcases x with ⟨s1, r1⟩
  cases r1 with
  | ok a => exact globalsExtend_trans hx (hf a s1 rfl)
  | err e => exact hx
  | panic => exact hx
  | fuelOut => exact hx

theorem push_instr_m_globals (E : Ext) (i : Instr) (st : UiuaState) :
    (push_instr_m E i st).1.globals = st.globals := by
  unfold push_instr_m
  cases hg : st.new_functions.getLast? with
  | none => rfl
  | some buf => rfl

theorem primitive_globals (E : Ext) (p : Primitive) (sp : Span) (call : Bool)
    (st : UiuaState) : (primitive E p sp call st).1.globals = st.globals := by
  unfold primitive add_span
  dsimp only
  by_cases hc : call
  · rw [if_pos hc]
    exact push_instr_m_globals E _ _
  · rw [if_neg hc]
    exact push_instr_m_globals E _ _

theorem run_prims_rev_globals (E : Ext) :
    ∀ (ps : List Primitive) (sp : Span) (call : Bool) (st : UiuaState),
      (run_prims_rev E ps sp call st).1.globals = st.globals := by
  intro ps
  induction ps with
  | nil => intro sp call st; rfl
  | cons p rest ih =>
    intro sp call st
    unfold run_prims_rev
    refine (rbind_globals _ _ ?_).trans (ih sp call st)
    intro a s1 _
    exact primitive_globals E p sp call s1

theorem ident_globals (E : Ext) (nm : String) (sp : Span) (call : Bool)
    (st : UiuaState) : (ident E nm sp call st).1.globals = st.globals := by
  unfold ident
  cases hl : lookupName st.stack.names nm with
  | some idx =>
    dsimp only
    cases hgv : st.globals.get? idx with
    | none => rfl
    | some v =>
      dsimp only
      refine (rbind_globals _ _ ?_).trans (push_instr_m_globals E _ _)
      intro a s1 _
      by_cases hc : v.isFunc ∧ call
      · rw [if_pos hc]
        unfold add_span
        dsimp only
        exact push_instr_m_globals E _ _
      · rw [if_neg hc]
  | none =>
    dsimp only
    cases hm : E.fromMultiname nm with
    | some prims => exact run_prims_rev_globals E prims sp call st
    | none =>
      dsimp only
      cases hdl : st.new_dfns.getLast? with
      | some d =>
        dsimp only
        cases hstr : nm.toList with
        | nil => rfl
        | cons c cs =>
          cases cs with
          | nil =>
            dsimp only
            by_cases hcc : 'a' ≤ c ∧ c ≤ 'z'
            · rw [if_pos hcc]
              cases hml : modify_last (fun l => l ++ [c.toNat - 'a'.toNat]) st.new_dfns with
              | none => rfl
              | some nd => exact push_instr_m_globals E _ _
            · rw [if_neg hcc]
          | cons c2 cs2 => rfl
      | none => rfl

theorem compiler_globals (E : Ext) : ∀ fuel : Nat,
    (∀ w call st, (word E fuel w call st).1.globals = st.globals) ∧
    (∀ ws call st, (words E fuel ws call st).1.globals = st.globals) ∧
    (∀ ws st, (compile_words E fuel ws st).1.globals = st.globals) ∧
    (∀ fid body st, (func E fuel fid body st).1.globals = st.globals) ∧
    (∀ fid body sp call st, (dfn E fuel fid body sp call st).1.globals = st.globals) ∧
    (∀ mp msp mwords call st,
      (modified E fuel mp msp mwords call st).1.globals = st.globals) := by
  intro fuel
  induction fuel with
  | zero =>
    exact ⟨fun _ _ _ => rfl, fun _ _ _ => rfl, fun _ _ => rfl, fun _ _ _ => rfl,
      fun _ _ _ _ _ => rfl, fun _ _ _ _ _ => rfl⟩
  | succ fuel ih =>
    obtain ⟨ihw, ihws, ihcw, ihf, ihd, ihm⟩ := ih
    refine ⟨?_, ?_, ?_, ?_, ?_, ?_⟩
    · intro w call st
      rcases w with ⟨sp, wv⟩
      cases wv with
      | number text =>
        simp only [word]
        cases hp : E.parseNum text with
        | some v => exact push_instr_m_globals E _ _
        | none => rfl
      | chrW c =>
        simp only [word]
        exact push_instr_m_globals E _ _
      | strW t =>
        simp only [word]
        exact push_instr_m_globals E _ _
      | identW nm =>
        simp only [word]
        exact ident_globals E nm sp call st
      | strand items =>
        simp only [word]
        refine (rbind_globals _ _ ?_).trans (push_instr_m_globals E _ _)
        intro a s1 _
        refine (rbind_globals _ _ ?_).trans (ihws items false s1)
        intro a2 s2 _
        unfold add_span
        dsimp only
        exact push_instr_m_globals E _ _
      | arrayW items =>
        simp only [word]
        refine (rbind_globals _ _ ?_).trans (push_instr_m_globals E _ _)
        intro a s1 _
        refine (rbind_globals _ _ ?_).trans (ihws items true s1)
        intro a2 s2 _
        unfold add_span
        dsimp only
        exact push_instr_m_globals E _ _
      | funcW fid body =>
        simp only [word]
        exact ihf fid body st
      | dfnW fid body =>
        simp only [word]
        exact ihd fid body sp call st
      | primW p =>
        simp only [word]
        exact primitive_globals E p sp call st
      | modifiedW mp msp mwords =>
        simp only [word]
        exact ihm mp msp mwords call st
      | spacesW => rfl
    · intro ws call st
      cases ws with
      | nil => rfl
      | cons w rest =>
        unfold words
        refine (rbind_globals _ _ ?_).trans (ihws rest call st)
        intro a s1 _
        exact ihw w call s1
    · intro ws st
      unfold compile_words
      dsimp only
      rcases hx : words E fuel ws true
          { st with new_functions := st.new_functions ++ [[]] } with ⟨s1, r1⟩
      have hg1 : s1.globals = st.globals :=
        (congrArg (fun z => z.1.globals) hx).symm.trans
          (ihws ws true { st with new_functions := st.new_functions ++ [[]] })
      cases r1 with
      | ok a =>
        dsimp only
        cases hlast : s1.new_functions.getLast? with
        | none => exact hg1
        | some instrs => exact hg1
      | err e => exact hg1
      | panic => exact hg1
      | fuelOut => exact hg1
    · intro fid body st
      unfold func
      refine (rbind_globals _ _ ?_).trans (ihcw body st)
      intro instrs s1 _
      split
      · split
        · exact push_instr_m_globals E _ _
        · exact push_instr_m_globals E _ _
      · exact push_instr_m_globals E _ _
    · intro fid body sp call st
      unfold dfn
      refine (rbind_globals _ _ ?_).trans (ihcw body _)
      intro instrs s1 _
      cases hdl : s1.new_dfns.getLast? with
      | none => rfl
      | some refs =>
        dsimp only
        unfold add_span
        dsimp only
        refine (rbind_globals _ _ ?_).trans (push_instr_m_globals E _ _)
        intro a2 s2 _
        by_cases hc : call
        · rw [if_pos hc]
          exact push_instr_m_globals E _ _
        · rw [if_neg hc]
    · intro mp msp mwords call st
      unfold modified
      refine (rbind_globals _ _ ?_).trans (ihws mwords false _)
      intro a s1 _
      refine (rbind_globals _ _ ?_).trans (primitive_globals E _ _ _ _)
      intro a2 s2 _
      cases hlast : s2.new_functions.getLast? with
      | none => rfl
      | some instrs =>
        dsimp only
        refine (rbind_globals _ _ ?_).trans (push_instr_m_globals E _ _)
        intro a3 s3 _
        by_cases hc : call
        · rw [if_pos hc]
          unfold add_span
          dsimp only
          exact push_instr_m_globals E _ _
        · rw [if_neg hc]

end Uiua

namespace Uiua

/-- C8: the globals table is append-only.  Running instructions
(`exec`), making a binding (`binding`), scoped execution (`in_scope`,
for any body that itself only appends) and pushing an imported scope
(`push_scope_imports`) all leave the old globals list as a prefix of
the new one; consequently the length never decreases, a valid index
stays valid, and the value stored at an index is never changed. -/
theorem c8_globals_append_only (E : Ext) (hE : tamePrims E) :
    (∀ fuel fr st, globalsExtend st (exec E fuel fr st).1) ∧
    (∀ fuel bname ws st, globalsExtend st (binding E fuel bname ws st).1) ∧
    (∀ (f : UiuaState → UiuaState × RunRes Unit) st,
      (∀ st2, globalsExtend st2 (f st2).1) → globalsExtend st (in_scope E f st).1) ∧
    (∀ sc st, (push_scope_imports sc st).1.globals = st.globals) ∧
    (∀ st st2, globalsExtend st st2 →
      st.globals.length ≤ st2.globals.length ∧
      ∀ i v, st.globals.get? i = some v → st2.globals.get? i = some v) := by
  have hexec : ∀ fuel fr st, globalsExtend st (exec E fuel fr st).1 :=
    fun fuel fr st => ((exec_preservation E hE fuel).1 fr st _ _ rfl).1
  refine ⟨hexec, ?_, ?_, ?_, ?_⟩
  · intro fuel bname ws st
    cases fuel with
    | zero => exact globalsExtend_refl st
    | succ fuel =>
      unfold binding
      dsimp only
      by_cases hf : E.isFunctiony bname
      · rw [if_pos hf]
        refine rbind_globalsExtend _ _ ⟨[], by simp [(compiler_globals E fuel).2.2.1]⟩ ?_
        intro instrs s1 _
        exact ⟨_, rfl⟩
      · rw [if_neg hf]
        refine rbind_globalsExtend _ _ ⟨[], by simp [(compiler_globals E fuel).2.2.1]⟩ ?_
        intro instrs s1 _
        refine rbind_globalsExtend _ _ (hexec fuel _ s1) ?_
        intro a s2 _
        exact ⟨_, rfl⟩
  · intro f st hf
    unfold in_scope
    dsimp only
    rcases hx : f { st with
      lower_stacks := st.lower_stacks ++ [st.stack],
      stack := scope_default E } with ⟨s2, r2⟩
    have h2 : globalsExtend st s2 := by
      have h3 := hf { st with
        lower_stacks := st.lower_stacks ++ [st.stack],
        stack := scope_default E }
      rw [hx] at h3
      exact h3
    cases r2 with
    | ok a =>
      dsimp only
      cases hll : s2.lower_stacks.getLast? with
      | none => exact h2
      | some saved => exact h2
    | err e => exact h2
    | panic => exact h2
    | fuelOut => exact h2
  · intro sc st
    unfold push_scope_imports
    cases hi : import_fns st.globals sc.names with
    | none => rfl
    | some fs => rfl
  · intro st st2 hext
    obtain ⟨t, ht⟩ := hext
    constructor
    · rw [ht]
      simp
    · intro i v hv
      have hi : i < st.globals.length := by
        by_contra hni
        rw [List.get?_eq_none.mpr (by omega)] at hv
        cases hv
      rw [ht, List.get?_append hi]
      exact hv

/-- C8 witness. -/
theorem c8_witness :
    globalsExtend state0 (exec extDefault 3 frame0 state0).1 ∧
    globalsExtend state0 (binding extDefault 3 "x" [] state0).1 ∧
    globalsExtend state0 (in_scope extDefault fOk state0).1 ∧
    (push_scope_imports scope0 state0).1.globals = state0.globals :=
  ⟨(c8_globals_append_only extDefault
      (fun p st => ⟨rfl, rfl, ⟨[], by simp [extDefault]⟩⟩)).1 3 frame0 state0,
   (c8_globals_append_only extDefault
      (fun p st => ⟨rfl, rfl, ⟨[], by simp [extDefault]⟩⟩)).2.1 3 "x" [] state0,
   (c8_globals_append_only extDefault
      (fun p st => ⟨rfl, rfl, ⟨[], by simp [extDefault]⟩⟩)).2.2.1 fOk state0
     (fun st2 => globalsExtend_refl st2),
   (c8_globals_append_only extDefault
      (fun p st => ⟨rfl, rfl, ⟨[], by simp [extDefault]⟩⟩)).2.2.2.1 scope0 state0⟩

end Uiua
